import Mathlib

/-!
Verification of the xxrpc RPC runtime (Go) against its specification.

A shallow embedding of the relevant source functions:
* service registration (service/service.go: RegisterMethods, NewService),
* the server registry (server/server.go: Register, findService),
* the server read loop (server/server.go: readRequest, serveCode),
* the handle-timeout state machine (server/server.go: handleRequest),
* client connection establishment (client/client.go: dialTimeout),
* the client call multiplexer (client/client.go: registerCall, removeCall,
  terminateCalls, receive, send, Go, Call) as a labelled transition system.

Machine integers (uint64 sequence ids) are modelled as Nat: the code only
increments the id, and 2^64 increments are unreachable, so overflow never
occurs on any path modelled here.
-/

namespace XXRpc

/-! ## Go reflection model (just enough for service registration)

A Go reflect.Type is modelled by its Name(), PkgPath() and Kind().
Identifiers are treated as ASCII (Go uses unicode.IsUpper; for ASCII
identifiers the two agree).
-/

inductive GoKind
  | ptrK | mapK | sliceK | interfaceK | structK | intK | otherK
  deriving DecidableEq, Repr

structure GoType where
  name : String
  pkgPath : String
  kind : GoKind
  deriving DecidableEq, Repr

/-- The canonical error interface type: reflect.TypeOf((*error)(nil)).Elem(). -/
def errorType : GoType := { name := "error", pkgPath := "", kind := .interfaceK }

/-- go/ast.IsExported: first character is upper-case (false on empty name). -/
def isExported (s : String) : Bool :=
  match s.data with
  | [] => false
  | c :: _ => c.isUpper

/-- service/service.go isExportedOrBuiltinType:
ast.IsExported(t.Name()) || t.PkgPath() == "". -/
def isExportedOrBuiltinType (t : GoType) : Bool :=
  isExported t.name || t.pkgPath == ""

/-- A method of the receiver type, as reflection sees it: method.Type has
In(0) = receiver, In(1) = arg, In(2) = reply; Out(0..) the results. -/
structure GoMethod where
  name : String
  ins : List GoType
  outs : List GoType
  deriving DecidableEq, Repr

/-- service/method.go MethodType (the Method handle itself is not needed). -/
structure MethodType where
  methodName : String
  ArgType : GoType
  ReplyType : GoType
  deriving DecidableEq, Repr

/-- One iteration of the loop body of Service.RegisterMethods
(service/service.go): returns some entry iff none of the `continue`
branches fires.  Note the source checks NumIn/NumOut, the error result
type, and exported-or-builtin for both parameter types, but never checks
that the reply type is pointer-kind. -/
def acceptMethod (m : GoMethod) : Option MethodType :=
  if m.ins.length ≠ 3 ∨ m.outs.length ≠ 1 then none
  else if m.outs.get? 0 ≠ some errorType then none
  else
    match m.ins.get? 1, m.ins.get? 2 with
    | some argType, some replyType =>
      if ¬ (isExportedOrBuiltinType argType ∧ isExportedOrBuiltinType replyType) then none
      else some { methodName := m.name, ArgType := argType, ReplyType := replyType }
    | _, _ => none

/-- Service.RegisterMethods: fold the loop over the receiver type's method
set, inserting accepted methods into the method map (Go method names are
unique per type; map insert is modelled by overwrite-cons). -/
def registerMethods (methods : List GoMethod) : List (String × MethodType) :=
  methods.foldl
    (fun acc m =>
      match acceptMethod m with
      | none => acc
      | some mt => (m.name, mt) :: acc.filter (fun p => p.1 ≠ m.name))
    []

/-- service/service.go Service (Typ and Rcvr carry no information the
claims need beyond the method set). -/
structure Service where
  Name : String
  Method : List (String × MethodType)
  deriving DecidableEq, Repr

/-- service/service.go NewService: derive the name from the receiver's
pointed-to type, log.Fatalf (modelled as none: the process dies) if the
name is not exported, then RegisterMethods. -/
def NewService (typeName : String) (methods : List GoMethod) : Option Service :=
  if ¬ isExported typeName then none
  else some { Name := typeName, Method := registerMethods methods }

/-! ## Server registry (server/server.go) -/

/-- The server's serviceMap, a map from service name to Service. -/
def Registry := List (String × Service)

instance : DecidableEq Registry := by
  unfold Registry
  infer_instance

/-- sync.Map.LoadOrStore: returns (actual value, loaded?) and the map,
unchanged when the key was present. -/
def loadOrStore (m : Registry) (k : String) (v : Service) :
    Service × Bool × Registry :=
  match List.lookup k m with
  | some old => (old, true, m)
  | none => (v, false, (k, v) :: m)

/-- Server.Register (server/server.go lines 218-224), for an
already-constructed Service: LoadOrStore under its name; if it was a
duplicate return the error, leaving the map untouched.  Returns the error
(none on success) together with the resulting registry. -/
def Register (m : Registry) (svc : Service) : Option String × Registry :=
  let r := loadOrStore m svc.Name svc
  if r.2.1 then (some ("rpc: service already defined: " ++ svc.Name), r.2.2)
  else (none, r.2.2)

/-- strings.LastIndex(s, "."): index of the last occurrence of c.
For the single-byte character the byte index equals the rune index. -/
def lastIndexOf (cs : List Char) (c : Char) : Option Nat :=
  match cs with
  | [] => none
  | x :: xs =>
    match lastIndexOf xs c with
    | some i => some (i + 1)
    | none => if x = c then some 0 else none

/-- Result of a successful findService. -/
structure FindOk where
  svc : Service
  mtype : MethodType
  deriving DecidableEq, Repr

/-- Server.findService (server/server.go lines 174-194): split at the last
dot; no dot, unknown service, unknown method each fail with their message;
otherwise return the service and method type. -/
def findService (serviceMap : Registry) (serviceMethod : String) :
    Except String FindOk :=
  let cs := serviceMethod.data
  match lastIndexOf cs '.' with
  | none => .error ("rpc server: service/method request ill-formed: " ++ serviceMethod)
  | some dot =>
    let serviceName := String.mk (cs.take dot)
    let methodName := String.mk (cs.drop (dot + 1))
    match List.lookup serviceName serviceMap with
    | none => .error ("rpc server: can't find service " ++ serviceName)
    | some svc =>
      match List.lookup methodName svc.Method with
      | none => .error ("rpc server: can't find method " ++ methodName)
      | some mtype => .ok { svc := svc, mtype := mtype }

/-! ## Wire frames and the server read loop (server/server.go, xxcode/)

The gob codec frames a stream as alternating header and body messages.
A frame is either a decoded Header or a body message; reading a frame as
the wrong kind is a gob type mismatch (decode error).  The boolean on a
body frame says whether it decodes into the expected argv type.
-/

structure Header where
  ServiceMethod : String
  SeqId : Nat
  Error : String
  deriving DecidableEq, Repr

inductive Frame
  | headerF (h : Header)
  | bodyF (decodable : Bool)
  deriving DecidableEq, Repr

inductive ReadErr
  | eof
  | decodeFail
  deriving DecidableEq, Repr

/-- GobCode.ReadHeader: decode the next message as a Header.  End of
stream is EOF; a body message is a type mismatch. -/
def readHeaderM : List Frame → Except ReadErr (Header × List Frame)
  | [] => .error .eof
  | .headerF h :: rest => .ok (h, rest)
  | .bodyF _ :: _ => .error .decodeFail

/-- GobCode.ReadBody into the argv destination: gob consumes the next
message even when it fails to assign it; the error strings stand for the
messages encoding/gob produces. -/
def readBodyM : List Frame → Option String × List Frame
  | [] => (some "unexpected EOF", [])
  | .bodyF ok :: rest => (if ok then none else some "gob: type mismatch", rest)
  | .headerF _ :: rest => (some "gob: type mismatch", rest)

/-- server/server.go request: head plus the resolved service/method
(argv/replyv carry no information the claims need). -/
structure Request where
  head : Header
  found : Option FindOk
  deriving DecidableEq, Repr

/-- Server.readRequest (server/server.go lines 102-128): read a header;
resolve the service and method, returning the request and the error
WITHOUT touching the body on resolution failure; otherwise allocate
argv/replyv and decode the body into argv. -/
def readRequest (serviceMap : Registry) (st : List Frame) :
    Option Request × Option String × List Frame :=
  match readHeaderM st with
  | .error _ => (none, some "read header error", st)
  | .ok (h, st1) =>
    match findService serviceMap h.ServiceMethod with
    | .error e => (some { head := h, found := none }, some e, st1)
    | .ok fs =>
      match readBodyM st1 with
      | (some e, st2) => (some { head := h, found := some fs }, some e, st2)
      | (none, st2) => (some { head := h, found := some fs }, none, st2)

/-- Observable actions of the serveCode loop: an error response written
with the placeholder body (invalidRequest), or a request handed to a
handleRequest goroutine. -/
inductive SrvEvent
  | errorResponse (h : Header)
  | handle (h : Header) (fs : FindOk)
  deriving DecidableEq, Repr

/-- Server.serveCode (server/server.go lines 61-81), read side: loop
readRequest; a nil request breaks the loop; a request with an error gets
the error attached to its header and an error response sent, then the
loop continues; otherwise the request is dispatched.  Fuel bounds the
loop (the stream length suffices). -/
def serveCode (serviceMap : Registry) : Nat → List Frame → List SrvEvent
  | 0, _ => []
  | fuel + 1, st =>
    match readRequest serviceMap st with
    | (none, _, _) => []
    | (some req, some e, st2) =>
      .errorResponse { req.head with Error := e } :: serveCode serviceMap fuel st2
    | (some req, none, st2) =>
      (match req.found with
       | some fs => [SrvEvent.handle req.head fs]
       | none => []) ++ serveCode serviceMap fuel st2

/-! ## Server.handleRequest (server/server.go lines 139-168)

A worker goroutine runs Service.Call, then rendezvouses on the unbuffered
channel `called`, sends the response, and rendezvouses on `sent`.  The
parent either waits for both (timeout zero), or races `called` against a
timer.  The model is a small labelled transition system over the joint
program counters; `callErr` is the error Service.Call returns, `h` the
request header, and `headErr` models the in-place mutation of
req.head.Error.  fmtDur stands for Go's time.Duration.String (stdlib,
out of scope), applied to the timeout in nanoseconds.
-/

inductive WPC
  | wstart
  | atCalled
  | postCalled
  | atSent
  | wdone
  deriving DecidableEq, Repr

inductive PPC
  | wait1
  | wait2
  | pdone
  | timedOut
  deriving DecidableEq, Repr

structure HState where
  wpc : WPC
  ppc : PPC
  headErr : String
  sends : List (Header × Bool)
  deriving DecidableEq, Repr

inductive HLabel
  | wcall
  | meetCalled
  | wsend
  | meetSent
  | timerFire
  deriving DecidableEq, Repr

/-- The timeout error text synthesized at server/server.go line 163. -/
def handleTimeoutMsg (fmtDur : Nat → String) (timeout : Nat) : String :=
  "rpc server: request handle timeout: expect within " ++ fmtDur timeout

/-- One scheduler step of handleRequest.  wcall: Service.Call returns.
meetCalled: the rendezvous on the unbuffered `called` (enabled only while
the parent is receiving; after a timeout the parent has returned and the
worker blocks here forever).  wsend: the worker writes its response (error
response with placeholder body if Service.Call failed, else the success
body).  meetSent: the rendezvous on `sent`.  timerFire: the select picks
time.After (only with a nonzero timeout and only while the parent is
still selecting): the parent writes the timeout error response and
returns. -/
def hstep (timeout : Nat) (fmtDur : Nat → String) (callErr : Option String)
    (h : Header) (s : HState) : HLabel → Option HState
  | .wcall =>
    if s.wpc = .wstart then some { s with wpc := .atCalled } else none
  | .meetCalled =>
    if s.wpc = .atCalled ∧ s.ppc = .wait1 then
      some { s with wpc := .postCalled, ppc := .wait2 }
    else none
  | .wsend =>
    if s.wpc = .postCalled then
      match callErr with
      | some e =>
        some { s with wpc := .atSent, headErr := e,
                      sends := s.sends ++ [({ h with Error := e }, true)] }
      | none =>
        some { s with wpc := .atSent,
                      sends := s.sends ++ [({ h with Error := s.headErr }, false)] }
    else none
  | .meetSent =>
    if s.wpc = .atSent ∧ s.ppc = .wait2 then
      some { s with wpc := .wdone, ppc := .pdone }
    else none
  | .timerFire =>
    if timeout ≠ 0 ∧ s.ppc = .wait1 then
      some { s with ppc := .timedOut,
                    headErr := handleTimeoutMsg fmtDur timeout,
                    sends := s.sends ++
                      [({ h with Error := handleTimeoutMsg fmtDur timeout }, true)] }
    else none

/-- Initial joint state of handleRequest: worker about to run
Service.Call, parent about to wait. -/
def hinit (h : Header) : HState :=
  { wpc := .wstart, ppc := .wait1, headErr := h.Error, sends := [] }

/-- A run of the handleRequest machine under a schedule. -/
def hrun (timeout : Nat) (fmtDur : Nat → String) (callErr : Option String)
    (h : Header) (sched : List HLabel) : Option HState :=
  sched.foldlM (hstep timeout fmtDur callErr h) (hinit h)

/-- The response the worker writes when it gets to send: on a Call error,
the error header with the placeholder body; otherwise the unchanged
header with the reply body. -/
def workerResponse (callErr : Option String) (h : Header) : Header × Bool :=
  match callErr with
  | some e => ({ h with Error := e }, true)
  | none => (h, false)

/-! ## Client.dialTimeout (client/client.go lines 256-289) -/

/-- common.Option (common/option.go); durations in nanoseconds. -/
structure Opt where
  MagicNumber : Nat
  CodeType : String
  ConnectTimeout : Nat
  HandleTimeout : Nat
  deriving DecidableEq, Repr

/-- common.MagicNumber. -/
def MagicNumber : Nat := 0x3bef5c

/-- common.DefaultOption: gob codec, 10s connect timeout, no handle
timeout. -/
def DefaultOption : Opt :=
  { MagicNumber := MagicNumber, CodeType := "application/gob",
    ConnectTimeout := 10000000000, HandleTimeout := 0 }

/-- client.parseOptions (client/client.go lines 169-183): no option or a
nil first option gives the default; more than one is an error; otherwise
the caller's option with the magic number forced and the codec name
defaulted. -/
def parseOptions (opts : List (Option Opt)) : Except String Opt :=
  if opts.length = 0 ∨ opts.get? 0 = some none then .ok DefaultOption
  else if opts.length ≠ 1 then .error "number of options is more than 1"
  else
    match opts.get? 0 with
    | some (some o) =>
      .ok { o with MagicNumber := DefaultOption.MagicNumber,
                   CodeType := if o.CodeType = "" then DefaultOption.CodeType
                               else o.CodeType }
    | _ => .ok DefaultOption

/-- Result of the handshake factory f(conn, opt): the clientResult record
sent on the channel ch. -/
structure DialResult where
  clientOk : Bool
  err : Option String
  deriving DecidableEq, Repr

inductive DPC
  | selecting
  | gotRes
  | dTimedOut
  deriving DecidableEq, Repr

/-- Joint state of the dialTimeout race: whether the factory goroutine
has finished (is ready to send on ch), and the parent's position. -/
structure DState where
  factoryReady : Bool
  dpc : DPC
  deriving DecidableEq, Repr

inductive DLabel
  | factoryDone
  | meetCh
  | dialTimer
  deriving DecidableEq, Repr

/-- One step of the dialTimeout race.  factoryDone: the factory returns
and the goroutine is ready to send on the unbuffered ch.  meetCh: the
parent receives the result.  dialTimer: with a nonzero ConnectTimeout the
select picks time.After. -/
def dstep (timeoutNZ : Bool) (s : DState) : DLabel → Option DState
  | .factoryDone =>
    if s.factoryReady = false then some { s with factoryReady := true } else none
  | .meetCh =>
    if s.factoryReady = true ∧ s.dpc = .selecting then
      some { s with dpc := .gotRes }
    else none
  | .dialTimer =>
    if timeoutNZ = true ∧ s.dpc = .selecting then
      some { s with dpc := .dTimedOut }
    else none

def drun (timeoutNZ : Bool) (sched : List DLabel) : Option DState :=
  sched.foldlM (dstep timeoutNZ) { factoryReady := false, dpc := .selecting }

/-- The connect-timeout error text (client/client.go line 285). -/
def connectTimeoutMsg (fmtDur : Nat → String) (timeout : Nat) : String :=
  "rpc client: connect timeout: expect within " ++ fmtDur timeout

/-- client.dialTimeout: parse the options; dial (dialOk says whether
net.DialTimeout succeeded); then either wait unconditionally for the
factory (ConnectTimeout zero) or race it against the timer.  Returns
none while the parent is still blocked; otherwise the returned
(client?, error) pair together with whether the deferred close ran on
the connection (it runs exactly when err is non-nil). -/
def dialTimeout (fmtDur : Nat → String) (opts : List (Option Opt))
    (dialOk : Bool) (fres : DialResult) (sched : List DLabel) :
    Option (DialResult × Bool) :=
  match parseOptions opts with
  | .error e => some ({ clientOk := false, err := some e }, false)
  | .ok opt =>
    if dialOk = false then
      some ({ clientOk := false, err := some "dial error" }, false)
    else
      match drun (opt.ConnectTimeout ≠ 0) sched with
      | none => none
      | some s =>
        match s.dpc with
        | .selecting => none
        | .gotRes => some (fres, fres.err.isSome)
        | .dTimedOut =>
          some ({ clientOk := false,
                  err := some (connectTimeoutMsg fmtDur opt.ConnectTimeout) }, true)

/-! ## Client call multiplexer (client/client.go)

Calls are identified by a call id `cid` (the identity of the Call object
created by Go).  The client state carries the Go struct fields (seq,
pending, closing, shutdown), the mutable Seq field of every Call object
(callSeq; zero until registered, as in Go), the sending-mutex holder, the
reader goroutine's position, and a per-call program counter for the send
path.  Every atomic action below corresponds to one critical section of
the source: all of them hold the state mutex mu, and sends additionally
span several actions while holding the sending mutex.  The event list is
history bookkeeping: one entry per completion signal (call.done()), per
registration, and per pending-entry removal performed by the cancellation
path of Call.
-/

/-- Where a send(call) invocation is in its body, plus cancellation. -/
inductive Phase
  | idle
  | locked
  | registered
  | wfailed
  | finished
  | cancelled
  deriving DecidableEq, Repr

/-- Holder of the sending mutex. -/
inductive Owner
  | sender (cid : Nat)
  | termCaller
  deriving DecidableEq, Repr

/-- Position of the receive goroutine. -/
inductive RState
  | running
  | broken
  | terminated
  deriving DecidableEq, Repr

/-- History events.  Each sig* event is one call.done() delivery; reg is a
successful registerCall; regFail is the send path completing the call
with the registerCall error; cancelRemove is the removeCall in Call's
ctx.Done branch actually deleting a pending entry. -/
inductive Ev
  | reg (cid s : Nat)
  | regFail (cid : Nat) (msg : String)
  | sigReaderOk (cid : Nat)
  | sigReaderErr (cid : Nat) (msg : String)
  | sigSendFail (cid : Nat) (msg : String)
  | sigTerm (cid : Nat) (msg : String)
  | cancelRemove (cid : Nat)
  deriving DecidableEq, Repr

structure CState where
  seq : Nat
  pending : List (Nat × Nat)
  closing : Bool
  shutdown : Bool
  sendLock : Option Owner
  reader : RState
  callSeq : List (Nat × Nat)
  phase : List (Nat × Phase)
  events : List Ev
  deriving DecidableEq, Repr

/-- Map update (insert or replace) for the assoc-list model of Go maps. -/
def aupd {α : Type} (l : List (Nat × α)) (k : Nat) (v : α) : List (Nat × α) :=
  (k, v) :: l.filter (fun p => p.1 != k)

/-- The Seq field of call object cid (zero until assigned, as in Go). -/
def getSeq (st : CState) (cid : Nat) : Nat :=
  (List.lookup cid st.callSeq).getD 0

def getPhase (st : CState) (cid : Nat) : Phase :=
  (List.lookup cid st.phase).getD .idle

/-- client.registerCall (client/client.go lines 70-81): fail when closing
or shut down; otherwise add the call under c.seq, assign call.Seq, and
increment c.seq, returning the assigned id. -/
def registerCall (st : CState) (cid : Nat) : Except String (Nat × CState) :=
  if st.closing ∨ st.shutdown then .error "connection is closed"
  else
    .ok (st.seq,
      { st with pending := aupd st.pending st.seq cid,
                callSeq := aupd st.callSeq cid st.seq,
                seq := st.seq + 1 })

/-- client.removeCall (client/client.go lines 84-90): look up, delete,
return what was found. -/
def removeCall (st : CState) (s : Nat) : Option Nat × CState :=
  (List.lookup s st.pending,
   { st with pending := st.pending.filter (fun p => p.1 != s) })

/-- client.terminateCalls (client/client.go lines 93-104): under both
mutexes, set shutdown and complete every call still in pending with the
error.  Entries are NOT removed from pending.  It is invoked once, by the
receive goroutine after its loop breaks, which the reader field records. -/
def terminateCalls (st : CState) (msg : String) : CState :=
  { st with shutdown := true,
            reader := .terminated,
            events := st.events ++ st.pending.map (fun p => Ev.sigTerm p.2 msg) }

/-- Scheduler actions; see step. -/
inductive Act
  | goStart (cid : Nat)
  | sendRegister (cid : Nat)
  | sendWriteOk (cid : Nat)
  | sendWriteFail (cid : Nat)
  | sendFailRemove (cid : Nat) (msg : String)
  | recvOk (s : Nat)
  | recvErr (s : Nat) (msg : String)
  | readerBreak
  | terminate (msg : String)
  | closeAct
  | cancel (cid : Nat)
  deriving DecidableEq, Repr

/-- One atomic action.
goStart: Go(...) calls send(call), which acquires the sending mutex.
sendRegister: the registerCall critical section inside send; on error the
call is completed with the error and send returns (releasing the mutex).
sendWriteOk: codec.Write succeeds; send returns.
sendWriteFail: codec.Write fails (mutex still held).
sendFailRemove: the removeCall after a failed Write; if the entry is
still there the call is completed with the write error, otherwise the
reader already handled it and nothing happens.
recvOk / recvErr: one iteration of receive: read a header for sequence id
s, removeCall, then discard the body (unknown id), or complete the call
with h.Error / the body-decode error, or fill the reply and complete it.
readerBreak: receive's header read fails; the loop exits.
terminate: the terminateCalls invocation that follows; it takes the
sending mutex first.
closeAct: Close flips closing (a second Close only returns an error).
cancel: the ctx.Done branch of Call for a call whose send has returned:
removeCall(call.Seq), signalling nothing. -/
def step (st : CState) : Act → Option CState
  | .goStart cid =>
    if st.sendLock = none ∧ getPhase st cid = .idle then
      some { st with sendLock := some (.sender cid),
                     phase := aupd st.phase cid .locked }
    else none
  | .sendRegister cid =>
    if st.sendLock = some (.sender cid) ∧ getPhase st cid = .locked then
      match registerCall st cid with
      | .error msg =>
        some { st with phase := aupd st.phase cid .finished,
                       sendLock := none,
                       events := st.events ++ [.regFail cid msg] }
      | .ok r =>
        some { r.2 with phase := aupd r.2.phase cid .registered,
                        events := r.2.events ++ [.reg cid r.1] }
    else none
  | .sendWriteOk cid =>
    if st.sendLock = some (.sender cid) ∧ getPhase st cid = .registered then
      some { st with phase := aupd st.phase cid .finished, sendLock := none }
    else none
  | .sendWriteFail cid =>
    if st.sendLock = some (.sender cid) ∧ getPhase st cid = .registered then
      some { st with phase := aupd st.phase cid .wfailed }
    else none
  | .sendFailRemove cid msg =>
    if st.sendLock = some (.sender cid) ∧ getPhase st cid = .wfailed then
      match removeCall st (getSeq st cid) with
      | (some c, st2) =>
        some { st2 with phase := aupd st2.phase cid .finished,
                        sendLock := none,
                        events := st2.events ++ [.sigSendFail c msg] }
      | (none, st2) =>
        some { st2 with phase := aupd st2.phase cid .finished,
                        sendLock := none }
    else none
  | .recvOk s =>
    if st.reader = .running then
      match removeCall st s with
      | (some c, st2) => some { st2 with events := st2.events ++ [.sigReaderOk c] }
      | (none, st2) => some st2
    else none
  | .recvErr s msg =>
    if st.reader = .running then
      match removeCall st s with
      | (some c, st2) =>
        some { st2 with events := st2.events ++ [.sigReaderErr c msg] }
      | (none, st2) => some st2
    else none
  | .readerBreak =>
    if st.reader = .running then some { st with reader := .broken } else none
  | .terminate msg =>
    if st.reader = .broken ∧ st.sendLock = none then some (terminateCalls st msg)
    else none
  | .closeAct =>
    if st.closing = false then some { st with closing := true } else none
  | .cancel cid =>
    if getPhase st cid = .finished then
      match removeCall st (getSeq st cid) with
      | (some c, st2) =>
        some { st2 with phase := aupd st2.phase cid .cancelled,
                        events := st2.events ++ [.cancelRemove c] }
      | (none, st2) =>
        some { st2 with phase := aupd st2.phase cid .cancelled }
    else none

/-- newClientCode (client/client.go lines 158-167): seq starts at 1
(0 means invalid call), empty pending map, reader spawned. -/
def initClient : CState :=
  { seq := 1, pending := [], closing := false, shutdown := false,
    sendLock := none, reader := .running, callSeq := [], phase := [],
    events := [] }

/-- A run of the client under a schedule of atomic actions. -/
def runClient (acts : List Act) : Option CState :=
  acts.foldlM step initClient

/-! Event measures. -/

/-- Completion signals delivered by the reader or the send-failure path
(these always follow a successful removeCall). -/
def Ev.isNonTermSigOf (cid : Nat) : Ev → Bool
  | .sigReaderOk c => c == cid
  | .sigReaderErr c _ => c == cid
  | .sigSendFail c _ => c == cid
  | _ => false

/-- Completion signals delivered by terminateCalls. -/
def Ev.isTermSigOf (cid : Nat) : Ev → Bool
  | .sigTerm c _ => c == cid
  | _ => false

def Ev.isRegOf (cid : Nat) : Ev → Bool
  | .reg c _ => c == cid
  | _ => false

def Ev.isCancelOf (cid : Nat) : Ev → Bool
  | .cancelRemove c => c == cid
  | _ => false

/-- Any event about call cid. -/
def evTouches (cid : Nat) : Ev → Bool
  | .reg c _ => c == cid
  | .regFail c _ => c == cid
  | .sigReaderOk c => c == cid
  | .sigReaderErr c _ => c == cid
  | .sigSendFail c _ => c == cid
  | .sigTerm c _ => c == cid
  | .cancelRemove c => c == cid

def nonTermSigCount (st : CState) (cid : Nat) : Nat :=
  (st.events.filter (Ev.isNonTermSigOf cid)).length

def termSigCount (st : CState) (cid : Nat) : Nat :=
  (st.events.filter (Ev.isTermSigOf cid)).length

/-- Number of completion signals (call.done() deliveries) for cid. -/
def sigCount (st : CState) (cid : Nat) : Nat :=
  nonTermSigCount st cid + termSigCount st cid

def regCount (st : CState) (cid : Nat) : Nat :=
  (st.events.filter (Ev.isRegOf cid)).length

def cancelCount (st : CState) (cid : Nat) : Nat :=
  (st.events.filter (Ev.isCancelOf cid)).length

/-- Outcomes in the sense of the specification: a completion signal or a
removal by cancellation. -/
def outcomeCount (st : CState) (cid : Nat) : Nat :=
  sigCount st cid + cancelCount st cid

/-- The sequence ids handed out by successful registerCalls, in order. -/
def regSeqs (st : CState) : List Nat :=
  st.events.filterMap (fun e =>
    match e with
    | .reg _ s => some s
    | _ => none)

/-- The inductive invariant of the client transition system. -/
structure Inv (st : CState) : Prop where
  seqPos : 1 ≤ st.seq
  regRange : regSeqs st = List.range' 1 (st.seq - 1)
  pendKeys : ∀ p ∈ st.pending, 1 ≤ p.1 ∧ p.1 < st.seq
  pendNodup : (st.pending.map Prod.fst).Nodup
  pendSeq : ∀ p ∈ st.pending, getSeq st p.2 = p.1
  seqBound : ∀ cid, getSeq st cid < st.seq
  getSeqInj : ∀ c1 c2, getSeq st c1 ≠ 0 → getSeq st c1 = getSeq st c2 → c1 = c2
  lockPhase : ∀ cid,
    (getPhase st cid = .locked ∨ getPhase st cid = .registered ∨
      getPhase st cid = .wfailed) → st.sendLock = some (.sender cid)
  regNoShut : ∀ cid,
    (getPhase st cid = .registered ∨ getPhase st cid = .wfailed) →
      st.shutdown = false
  regSeqVal : ∀ cid s, Ev.reg cid s ∈ st.events → getSeq st cid = s
  seqZeroIffUnreg : ∀ cid, getSeq st cid = 0 ↔ regCount st cid = 0
  earlyClean : ∀ cid, (getPhase st cid = .idle ∨ getPhase st cid = .locked) →
    getSeq st cid = 0 ∧ ∀ e ∈ st.events, evTouches cid e = false
  sigOnce : ∀ cid, sigCount st cid ≤ 1
  pendNoSig : ∀ p ∈ st.pending, nonTermSigCount st p.2 = 0
  readerNoTerm : st.reader ≠ .terminated → ∀ cid, termSigCount st cid = 0
  shutReader : st.shutdown = true ↔ st.reader = .terminated
  cancelNoNonTerm : ∀ cid, 1 ≤ cancelCount st cid → nonTermSigCount st cid = 0
  pendNoCancel : ∀ p ∈ st.pending, cancelCount st p.2 = 0
  pendRegistered : ∀ p ∈ st.pending, 1 ≤ regCount st p.2
  removedHasOutcome : ∀ cid, 1 ≤ regCount st cid →
    List.lookup (getSeq st cid) st.pending = none → 1 ≤ outcomeCount st cid
  termOutcome : st.reader = .terminated →
    ∀ cid, 1 ≤ regCount st cid → 1 ≤ outcomeCount st cid

/-- Reachability in the client transition system. -/
def ClientReachable (st : CState) : Prop :=
  ∃ acts, runClient acts = some st

/-- Joint-state invariant of the handleRequest machine: the reachable
combinations of worker and parent position, with the response list and
the header error determined by the position. -/
def HGood (timeout : Nat) (fmtDur : Nat → String) (callErr : Option String)
    (h : Header) (s : HState) : Prop :=
  (s.wpc = .wstart ∧ s.ppc = .wait1 ∧ s.headErr = h.Error ∧ s.sends = [])
  ∨ (s.wpc = .atCalled ∧ s.ppc = .wait1 ∧ s.headErr = h.Error ∧ s.sends = [])
  ∨ (s.wpc = .postCalled ∧ s.ppc = .wait2 ∧ s.headErr = h.Error ∧ s.sends = [])
  ∨ (s.wpc = .atSent ∧ s.ppc = .wait2 ∧ s.sends = [workerResponse callErr h])
  ∨ (s.wpc = .wdone ∧ s.ppc = .pdone ∧ s.sends = [workerResponse callErr h])
  ∨ (timeout ≠ 0 ∧ (s.wpc = .wstart ∨ s.wpc = .atCalled) ∧ s.ppc = .timedOut ∧
      s.sends = [({ h with Error := handleTimeoutMsg fmtDur timeout }, true)])

/-! Concrete instances used by the claim theorems. -/

/-- reflect.Type of Go int: Name "int", empty PkgPath, not pointer-kind. -/
def intType : GoType := { name := "int", pkgPath := "", kind := .intK }

/-- reflect.Type of a pointer receiver such as *Bar: composite types have
an empty Name and empty PkgPath. -/
def ptrRecvType : GoType := { name := "", pkgPath := "", kind := .ptrK }

/-- reflect.Type of *int. -/
def intPtrType : GoType := { name := "", pkgPath := "", kind := .ptrK }

/-- A method Bad(argv int, reply int) error whose reply parameter is NOT
pointer-kind; method.Type has ins (receiver, int, int) and outs (error). -/
def badReplyMethod : GoMethod :=
  { name := "Bad", ins := [ptrRecvType, intType, intType], outs := [errorType] }

/-- The Bar.Timeout(argv int, reply *int) error method of the test suite. -/
def timeoutMT : MethodType :=
  { methodName := "Timeout", ArgType := intType, ReplyType := intPtrType }

def barService : Service := { Name := "Bar", Method := [("Timeout", timeoutMT)] }

def exHeader1 : Header := { ServiceMethod := "Foo.Bar", SeqId := 1, Error := "" }

def exHeader2 : Header := { ServiceMethod := "Bar.Timeout", SeqId := 2, Error := "" }

/-- A request whose resolution fails (empty registry) followed by its body
frame and a second complete request. -/
def exStream : List Frame :=
  [.headerF exHeader1, .bodyF true, .headerF exHeader2, .bodyF true]

/-- Schedule: call 0 is sent successfully; the stream breaks; the reader
terminates all pending calls (signalling call 0 but leaving it in the
pending map); then the awaiter's cancellation scope fires and Call removes
the stale entry. -/
def cexTrace : List Act :=
  [.goStart 0, .sendRegister 0, .sendWriteOk 0, .readerBreak,
   .terminate "read tcp: connection reset", .cancel 0]

/-- Outcome measures of call 0 after cexTrace: (registrations, completion
signals, terminate signals, cancellation removals, outcomes). -/
def cexMeasures : Option (Nat × Nat × Nat × Nat × Nat) :=
  (runClient cexTrace).map (fun st =>
    (regCount st 0, sigCount st 0, termSigCount st 0, cancelCount st 0,
      outcomeCount st 0))

def c6Trace : List Act :=
  [.goStart 0, .sendRegister 0, .sendWriteOk 0, .goStart 1, .sendRegister 1,
   .sendWriteOk 1]

/-- The client state after c6Trace: two calls sent successfully. -/
def c6State : CState :=
  { seq := 3, pending := [(2, 1), (1, 0)], closing := false, shutdown := false,
    sendLock := none, reader := .running, callSeq := [(1, 2), (0, 1)],
    phase := [(1, .finished), (0, .finished)],
    events := [.reg 0 1, .reg 1 2] }

/-- The client state after cexTrace. -/
def c3State : CState :=
  { seq := 2, pending := [], closing := false, shutdown := true,
    sendLock := none, reader := .terminated, callSeq := [(0, 1)],
    phase := [(0, .cancelled)],
    events := [.reg 0 1, .sigTerm 0 "read tcp: connection reset",
      .cancelRemove 0] }

/-- The client state after Close then Go(call 0): closing is set and the
send path of call 0 holds the sending mutex, about to registerCall. -/
def c7State : CState :=
  { seq := 1, pending := [], closing := true, shutdown := false,
    sendLock := some (.sender 0), reader := .running, callSeq := [],
    phase := [(0, .locked)], events := [] }

/-- exHeader1 with the 5ns handle-timeout error attached. -/
def c4Header : Header :=
  { ServiceMethod := "Foo.Bar", SeqId := 1,
    Error := "rpc server: request handle timeout: expect within 5ns" }

/-- The handleRequest state after the schedule [wcall, timerFire] with a
5ns timeout. -/
def c4State : HState :=
  { wpc := .atCalled, ppc := .timedOut,
    headErr := "rpc server: request handle timeout: expect within 5ns",
    sends := [(c4Header, true)] }

/-- A caller-supplied option with a 1s connect timeout. -/
def c5OptIn : Opt :=
  { MagicNumber := 0, CodeType := "", ConnectTimeout := 1000000000,
    HandleTimeout := 0 }

/-- parseOptions applied to c5OptIn: magic forced, codec defaulted. -/
def c5Opt : Opt :=
  { MagicNumber := MagicNumber, CodeType := "application/gob",
    ConnectTimeout := 1000000000, HandleTimeout := 0 }

/-- A handshake factory result that would have succeeded. -/
def fres0 : DialResult := { clientOk := true, err := none }

/-!
### Theorems

Helper lemmas about assoc-list maps, then the inductive invariants of the
three transition systems, then one theorem per specification claim.
-/

theorem lookup_mem {α : Type} {l : List (Nat × α)} {k : Nat} {v : α}
    (h : List.lookup k l = some v) : (k, v) ∈ l := by
  obtain ⟨l1, l2, rfl, -⟩ := List.lookup_eq_some_iff.mp h
  simp

theorem lookup_none_keys {α : Type} {l : List (Nat × α)} {k : Nat} :
    List.lookup k l = none ↔ ∀ p ∈ l, p.1 ≠ k := by
  rw [List.lookup_eq_none_iff]
  constructor
  · intro h p hp
    exact fun he => by simpa [he] using h p hp
  · intro h p hp
    simpa [bne_iff_ne] using (h p hp).symm

theorem lookup_filterKey_ne {α : Type} (l : List (Nat × α)) (s : Nat) {k : Nat}
    (h : k ≠ s) :
    List.lookup k (l.filter (fun p => p.1 != s)) = List.lookup k l := by
  induction l with
  | nil => rfl
  | cons p t ih =>
    obtain ⟨a, b⟩ := p
    by_cases ha : a = s
    · subst ha
      have hk : (k == a) = false := by simpa using h
      simp [List.filter_cons, List.lookup_cons, hk, ih]
    · by_cases hk : k = a
      · subst hk
        simp [List.filter_cons, List.lookup_cons, ha]
      · have hk2 : (k == a) = false := by simpa using hk
        simp [List.filter_cons, List.lookup_cons, hk2, ih, ha]

theorem lookup_filterKey_self {α : Type} (l : List (Nat × α)) (s : Nat) :
    List.lookup s (l.filter (fun p => p.1 != s)) = none := by
  rw [lookup_none_keys]
  intro p hp
  have := (List.mem_filter.mp hp).2
  simpa [bne_iff_ne] using this

theorem filterKey_eq_self {α : Type} {l : List (Nat × α)} {s : Nat}
    (h : List.lookup s l = none) : l.filter (fun p => p.1 != s) = l := by
  rw [List.filter_eq_self]
  intro p hp
  simpa [bne_iff_ne] using lookup_none_keys.mp h p hp

theorem lookup_aupd_self {α : Type} (l : List (Nat × α)) (k : Nat) (v : α) :
    List.lookup k (aupd l k v) = some v := by
  simp [aupd]

theorem lookup_aupd_ne {α : Type} (l : List (Nat × α)) (k : Nat) (v : α)
    {k2 : Nat} (h : k2 ≠ k) :
    List.lookup k2 (aupd l k v) = List.lookup k2 l := by
  have hk : (k2 == k) = false := by simpa using h
  simp [aupd, List.lookup_cons, hk, lookup_filterKey_ne l k h]

theorem mem_aupd {α : Type} {l : List (Nat × α)} {k : Nat} {v : α} {p : Nat × α}
    (h : p ∈ aupd l k v) : p = (k, v) ∨ p ∈ l := by
  rcases List.mem_cons.mp h with h | h
  · exact Or.inl h
  · exact Or.inr (List.mem_of_mem_filter h)

theorem nodup_keys_filter {α : Type} {l : List (Nat × α)}
    (f : Nat × α → Bool) (h : (l.map Prod.fst).Nodup) :
    ((l.filter f).map Prod.fst).Nodup :=
  List.Nodup.sublist (List.Sublist.map Prod.fst (List.filter_sublist l)) h

theorem nodup_keys_aupd {α : Type} {l : List (Nat × α)} {k : Nat} {v : α}
    (h : (l.map Prod.fst).Nodup) :
    ((aupd l k v).map Prod.fst).Nodup := by
  rw [aupd]
  refine List.Nodup.cons ?_ (nodup_keys_filter _ h)
  intro hk
  rw [List.mem_map] at hk
  obtain ⟨p, hp, hfst⟩ := hk
  exact absurd hfst (by simpa [bne_iff_ne] using (List.mem_filter.mp hp).2)

theorem termSig_of_map (l : List (Nat × Nat)) (msg : String) (cid : Nat) :
    ((l.map fun p => Ev.sigTerm p.2 msg).filter (Ev.isTermSigOf cid)).length =
      (l.map Prod.snd).count cid := by
  induction l with
  | nil => rfl
  | cons p t ih =>
    by_cases hp : p.2 = cid
    · simp [List.filter_cons, Ev.isTermSigOf, hp, List.count_cons, ih]
    · have hp2 : (p.2 == cid) = false := by simpa using hp
      have hp3 : (cid == p.2) = false := by simpa using fun he => hp he.symm
      simp [List.filter_cons, Ev.isTermSigOf, hp2, hp3, List.count_cons, ih]

theorem nonTermSig_of_map (l : List (Nat × Nat)) (msg : String) (cid : Nat) :
    (l.map fun p => Ev.sigTerm p.2 msg).filter (Ev.isNonTermSigOf cid) = [] := by
  rw [List.filter_eq_nil_iff]
  intro e he
  rw [List.mem_map] at he
  obtain ⟨p, -, rfl⟩ := he
  simp [Ev.isNonTermSigOf]

theorem regOf_of_map (l : List (Nat × Nat)) (msg : String) (cid : Nat) :
    (l.map fun p => Ev.sigTerm p.2 msg).filter (Ev.isRegOf cid) = [] := by
  rw [List.filter_eq_nil_iff]
  intro e he
  rw [List.mem_map] at he
  obtain ⟨p, -, rfl⟩ := he
  simp [Ev.isRegOf]

theorem cancelOf_of_map (l : List (Nat × Nat)) (msg : String) (cid : Nat) :
    (l.map fun p => Ev.sigTerm p.2 msg).filter (Ev.isCancelOf cid) = [] := by
  rw [List.filter_eq_nil_iff]
  intro e he
  rw [List.mem_map] at he
  obtain ⟨p, -, rfl⟩ := he
  simp [Ev.isCancelOf]

theorem regSeqs_of_map (l : List (Nat × Nat)) (msg : String) :
    ((l.map fun p => Ev.sigTerm p.2 msg).filterMap fun e =>
      match e with
      | .reg _ s => some s
      | _ => none) = [] := by
  rw [List.filterMap_eq_nil_iff]
  intro e he
  rw [List.mem_map] at he
  obtain ⟨p, -, rfl⟩ := he
  rfl

/-- With distinct pending keys and each key equal to its call's Seq field,
no call id occurs twice in the pending map. -/
theorem pend_snd_nodup (st : CState)
    (hnd : (st.pending.map Prod.fst).Nodup)
    (hps : ∀ p ∈ st.pending, getSeq st p.2 = p.1) :
    (st.pending.map Prod.snd).Nodup := by
  have hmap : st.pending.map Prod.fst =
      (st.pending.map Prod.snd).map (getSeq st) := by
    rw [List.map_map]
    exact List.map_congr_left (fun p hp => (hps p hp).symm)
  rw [hmap] at hnd
  exact hnd.of_map _

theorem getD_aupd_self {α : Type} (l : List (Nat × α)) (k : Nat) (v d : α) :
    (List.lookup k (aupd l k v)).getD d = v := by
  rw [lookup_aupd_self]
  rfl

theorem getD_aupd_ne {α : Type} (l : List (Nat × α)) (k : Nat) (v d : α)
    {k2 : Nat} (h : k2 ≠ k) :
    (List.lookup k2 (aupd l k v)).getD d = (List.lookup k2 l).getD d := by
  rw [lookup_aupd_ne _ _ _ h]

theorem getD_aupd {α : Type} (l : List (Nat × α)) (k : Nat) (v d : α) (k2 : Nat) :
    (List.lookup k2 (aupd l k v)).getD d =
      if k2 = k then v else (List.lookup k2 l).getD d := by
  by_cases h : k2 = k
  · subst h
    simp [getD_aupd_self]
  · simp [h, getD_aupd_ne _ _ _ _ h]

theorem invInit : Inv initClient := by
  constructor <;>
    simp [initClient, regSeqs, regCount, getSeq, getPhase, sigCount,
      nonTermSigCount, termSigCount, cancelCount, outcomeCount]

theorem inv_closeAct {st st2 : CState} (hI : Inv st)
    (h : step st .closeAct = some st2) : Inv st2 := by
  simp only [step] at h
  split_ifs at h with hc
  · obtain rfl := Option.some.inj h
    exact ⟨hI.seqPos, hI.regRange, hI.pendKeys, hI.pendNodup, hI.pendSeq,
      hI.seqBound, hI.getSeqInj, hI.lockPhase, hI.regNoShut, hI.regSeqVal,
      hI.seqZeroIffUnreg, hI.earlyClean, hI.sigOnce, hI.pendNoSig,
      hI.readerNoTerm, hI.shutReader, hI.cancelNoNonTerm, hI.pendNoCancel,
      hI.pendRegistered, hI.removedHasOutcome, hI.termOutcome⟩

theorem inv_readerBreak {st st2 : CState} (hI : Inv st)
    (h : step st .readerBreak = some st2) : Inv st2 := by
  simp only [step] at h
  split_ifs at h with hc
  · obtain rfl := Option.some.inj h
    have hshut : st.shutdown = false := by
      rcases Bool.eq_false_or_eq_true st.shutdown with h1 | h1
      · rw [hI.shutReader.mp h1] at hc
        exact absurd hc (by simp)
      · exact h1
    refine ⟨hI.seqPos, hI.regRange, hI.pendKeys, hI.pendNodup, hI.pendSeq,
      hI.seqBound, hI.getSeqInj, hI.lockPhase, hI.regNoShut, hI.regSeqVal,
      hI.seqZeroIffUnreg, hI.earlyClean, hI.sigOnce, hI.pendNoSig,
      ?_, ?_, hI.cancelNoNonTerm, hI.pendNoCancel,
      hI.pendRegistered, hI.removedHasOutcome, ?_⟩
    · intro _ cid
      exact hI.readerNoTerm (by rw [hc]; simp) cid
    · rw [hshut]
      simp
    · intro hterm
      exact absurd hterm (by simp)

theorem len_filter_append_single (p : Ev → Bool) (l : List Ev) (e : Ev) :
    ((l ++ [e]).filter p).length =
      (l.filter p).length + (if p e then 1 else 0) := by
  rw [List.filter_append]
  by_cases hp : p e
  · simp [hp]
  · simp [hp]

/-- All event measures of a call that no event touches are zero. -/
theorem counts_zero_of_no_touch (evs : List Ev) (cid : Nat)
    (h : ∀ e ∈ evs, evTouches cid e = false) :
    (evs.filter (Ev.isNonTermSigOf cid)).length = 0 ∧
    (evs.filter (Ev.isTermSigOf cid)).length = 0 ∧
    (evs.filter (Ev.isRegOf cid)).length = 0 ∧
    (evs.filter (Ev.isCancelOf cid)).length = 0 := by
  refine ⟨?_, ?_, ?_, ?_⟩ <;>
    · rw [List.length_eq_zero, List.filter_eq_nil_iff]
      intro e he hpe
      have := h e he
      cases e <;> simp [evTouches, Ev.isNonTermSigOf, Ev.isTermSigOf,
        Ev.isRegOf, Ev.isCancelOf] at this hpe <;> simp_all

theorem inv_goStart {st st2 : CState} {cid : Nat} (hI : Inv st)
    (h : step st (.goStart cid) = some st2) : Inv st2 := by
  simp only [step] at h
  split_ifs at h with hc
  obtain ⟨hlock, hph⟩ := hc
  obtain rfl := Option.some.inj h
  refine ⟨hI.seqPos, hI.regRange, hI.pendKeys, hI.pendNodup, hI.pendSeq,
    hI.seqBound, hI.getSeqInj, ?_, ?_, hI.regSeqVal, hI.seqZeroIffUnreg, ?_,
    hI.sigOnce, hI.pendNoSig, hI.readerNoTerm, hI.shutReader,
    hI.cancelNoNonTerm, hI.pendNoCancel, hI.pendRegistered,
    hI.removedHasOutcome, hI.termOutcome⟩
  · intro c hcph
    simp only [getPhase, getD_aupd] at hcph
    by_cases hcc : c = cid
    · simp [hcc]
    · rw [if_neg hcc] at hcph
      have := hI.lockPhase c hcph
      rw [hlock] at this
      exact Option.noConfusion this
  · intro c hcph
    simp only [getPhase, getD_aupd] at hcph
    by_cases hcc : c = cid
    · rw [if_pos hcc] at hcph
      rcases hcph with h1 | h1 <;> exact Phase.noConfusion h1
    · rw [if_neg hcc] at hcph
      have := hI.lockPhase c (Or.inr hcph)
      rw [hlock] at this
      exact Option.noConfusion this
  · intro c hcph
    simp only [getPhase, getD_aupd] at hcph
    by_cases hcc : c = cid
    · subst hcc
      exact hI.earlyClean c (Or.inl hph)
    · rw [if_neg hcc] at hcph
      exact hI.earlyClean c hcph

theorem inv_sendWriteOk {st st2 : CState} {cid : Nat} (hI : Inv st)
    (h : step st (.sendWriteOk cid) = some st2) : Inv st2 := by
  simp only [step] at h
  split_ifs at h with hc
  obtain ⟨hlock, hph⟩ := hc
  obtain rfl := Option.some.inj h
  refine ⟨hI.seqPos, hI.regRange, hI.pendKeys, hI.pendNodup, hI.pendSeq,
    hI.seqBound, hI.getSeqInj, ?_, ?_, hI.regSeqVal, hI.seqZeroIffUnreg, ?_,
    hI.sigOnce, hI.pendNoSig, hI.readerNoTerm, hI.shutReader,
    hI.cancelNoNonTerm, hI.pendNoCancel, hI.pendRegistered,
    hI.removedHasOutcome, hI.termOutcome⟩
  · intro c hcph
    simp only [getPhase, getD_aupd] at hcph
    by_cases hcc : c = cid
    · rw [if_pos hcc] at hcph
      rcases hcph with h1 | h1 | h1 <;> exact Phase.noConfusion h1
    · rw [if_neg hcc] at hcph
      have := hI.lockPhase c hcph
      rw [hlock] at this
      exact absurd (Option.some.inj this) (fun he => hcc (Owner.sender.inj he.symm))
  · intro c hcph
    simp only [getPhase, getD_aupd] at hcph
    by_cases hcc : c = cid
    · rw [if_pos hcc] at hcph
      rcases hcph with h1 | h1 <;> exact Phase.noConfusion h1
    · rw [if_neg hcc] at hcph
      exact hI.regNoShut c hcph
  · intro c hcph
    simp only [getPhase, getD_aupd] at hcph
    by_cases hcc : c = cid
    · rw [if_pos hcc] at hcph
      rcases hcph with h1 | h1 <;> exact Phase.noConfusion h1
    · rw [if_neg hcc] at hcph
      exact hI.earlyClean c hcph

theorem inv_sendWriteFail {st st2 : CState} {cid : Nat} (hI : Inv st)
    (h : step st (.sendWriteFail cid) = some st2) : Inv st2 := by
  simp only [step] at h
  split_ifs at h with hc
  obtain ⟨hlock, hph⟩ := hc
  obtain rfl := Option.some.inj h
  refine ⟨hI.seqPos, hI.regRange, hI.pendKeys, hI.pendNodup, hI.pendSeq,
    hI.seqBound, hI.getSeqInj, ?_, ?_, hI.regSeqVal, hI.seqZeroIffUnreg, ?_,
    hI.sigOnce, hI.pendNoSig, hI.readerNoTerm, hI.shutReader,
    hI.cancelNoNonTerm, hI.pendNoCancel, hI.pendRegistered,
    hI.removedHasOutcome, hI.termOutcome⟩
  · intro c hcph
    simp only [getPhase, getD_aupd] at hcph
    by_cases hcc : c = cid
    · subst hcc
      exact hlock
    · rw [if_neg hcc] at hcph
      have := hI.lockPhase c hcph
      rw [hlock] at this
      exact absurd (Option.some.inj this) (fun he => hcc (Owner.sender.inj he.symm))
  · intro c hcph
    simp only [getPhase, getD_aupd] at hcph
    by_cases hcc : c = cid
    · subst hcc
      exact hI.regNoShut c (Or.inl hph)
    · rw [if_neg hcc] at hcph
      exact hI.regNoShut c hcph
  · intro c hcph
    simp only [getPhase, getD_aupd] at hcph
    by_cases hcc : c = cid
    · rw [if_pos hcc] at hcph
      rcases hcph with h1 | h1 <;> exact Phase.noConfusion h1
    · rw [if_neg hcc] at hcph
      exact hI.earlyClean c hcph

theorem nonTermSigCount_append {st2 st : CState} (c : Nat) {e : Ev}
    (h : st2.events = st.events ++ [e]) :
    nonTermSigCount st2 c =
      nonTermSigCount st c + (if Ev.isNonTermSigOf c e then 1 else 0) := by
  rw [nonTermSigCount, h, len_filter_append_single]
  rfl

theorem termSigCount_append {st2 st : CState} (c : Nat) {e : Ev}
    (h : st2.events = st.events ++ [e]) :
    termSigCount st2 c =
      termSigCount st c + (if Ev.isTermSigOf c e then 1 else 0) := by
  rw [termSigCount, h, len_filter_append_single]
  rfl

theorem regCount_append {st2 st : CState} (c : Nat) {e : Ev}
    (h : st2.events = st.events ++ [e]) :
    regCount st2 c = regCount st c + (if Ev.isRegOf c e then 1 else 0) := by
  rw [regCount, h, len_filter_append_single]
  rfl

theorem cancelCount_append {st2 st : CState} (c : Nat) {e : Ev}
    (h : st2.events = st.events ++ [e]) :
    cancelCount st2 c = cancelCount st c + (if Ev.isCancelOf c e then 1 else 0) := by
  rw [cancelCount, h, len_filter_append_single]
  rfl

theorem sigCount_append {st2 st : CState} (c : Nat) {e : Ev}
    (h : st2.events = st.events ++ [e]) :
    sigCount st2 c = sigCount st c +
      ((if Ev.isNonTermSigOf c e then 1 else 0) +
        (if Ev.isTermSigOf c e then 1 else 0)) := by
  rw [sigCount, sigCount, nonTermSigCount_append c h, termSigCount_append c h]
  omega

theorem outcomeCount_append {st2 st : CState} (c : Nat) {e : Ev}
    (h : st2.events = st.events ++ [e]) :
    outcomeCount st2 c = outcomeCount st c +
      ((if Ev.isNonTermSigOf c e then 1 else 0) +
        (if Ev.isTermSigOf c e then 1 else 0) +
        (if Ev.isCancelOf c e then 1 else 0)) := by
  rw [outcomeCount, outcomeCount, sigCount_append c h, cancelCount_append c h]
  omega

theorem regSeqs_append {st2 st : CState} {e : Ev}
    (h : st2.events = st.events ++ [e]) :
    regSeqs st2 = regSeqs st ++
      (match e with
       | .reg _ s => [s]
       | _ => []) := by
  cases e <;> simp [regSeqs, h, List.filterMap_append]

theorem inv_sendRegister {st st2 : CState} {cid : Nat} (hI : Inv st)
    (h : step st (.sendRegister cid) = some st2) : Inv st2 := by
  simp only [step] at h
  split_ifs at h with hc
  obtain ⟨hlock, hph⟩ := hc
  obtain ⟨hseq0, hnotouch⟩ := hI.earlyClean cid (Or.inr hph)
  obtain ⟨hnt0, ht0, hreg0, hcan0⟩ := counts_zero_of_no_touch st.events cid hnotouch
  rcases hreg : registerCall st cid with msg | r
  · rw [hreg] at h
    obtain rfl := Option.some.inj h
    refine ⟨hI.seqPos, ?_, hI.pendKeys, hI.pendNodup, hI.pendSeq, hI.seqBound,
      hI.getSeqInj, ?_, ?_, ?_, ?_, ?_, ?_, ?_, ?_, hI.shutReader, ?_, ?_, ?_,
      ?_, ?_⟩
    · rw [regSeqs_append rfl]
      simpa using hI.regRange
    · intro c hcph
      simp only [getPhase, getD_aupd] at hcph
      by_cases hcc : c = cid
      · rw [if_pos hcc] at hcph
        rcases hcph with h1 | h1 | h1 <;> exact Phase.noConfusion h1
      · rw [if_neg hcc] at hcph
        have := hI.lockPhase c hcph
        rw [hlock] at this
        exact absurd (Option.some.inj this) (fun he => hcc (Owner.sender.inj he.symm))
    · intro c hcph
      simp only [getPhase, getD_aupd] at hcph
      by_cases hcc : c = cid
      · rw [if_pos hcc] at hcph
        rcases hcph with h1 | h1 <;> exact Phase.noConfusion h1
      · rw [if_neg hcc] at hcph
        exact hI.regNoShut c hcph
    · intro c s hmem
      rcases List.mem_append.mp hmem with hm | hm
      · exact hI.regSeqVal c s hm
      · simp at hm
    · intro c
      rw [regCount_append c rfl]
      simpa [Ev.isRegOf] using hI.seqZeroIffUnreg c
    · intro c hcph
      simp only [getPhase, getD_aupd] at hcph
      by_cases hcc : c = cid
      · rw [if_pos hcc] at hcph
        rcases hcph with h1 | h1 <;> exact Phase.noConfusion h1
      · rw [if_neg hcc] at hcph
        obtain ⟨h1, h2⟩ := hI.earlyClean c hcph
        refine ⟨h1, ?_⟩
        intro e he
        rcases List.mem_append.mp he with hm | hm
        · exact h2 e hm
        · simp at hm
          subst hm
          simpa [evTouches] using fun he2 => hcc he2.symm
    · intro c
      rw [sigCount_append c rfl]
      simpa [Ev.isNonTermSigOf, Ev.isTermSigOf] using hI.sigOnce c
    · intro p hp
      rw [nonTermSigCount_append p.2 rfl]
      simpa [Ev.isNonTermSigOf] using hI.pendNoSig p hp
    · intro hr c
      rw [termSigCount_append c rfl]
      simpa [Ev.isTermSigOf] using hI.readerNoTerm hr c
    · intro c hc1
      rw [cancelCount_append c rfl] at hc1
      rw [nonTermSigCount_append c rfl]
      simp only [Ev.isCancelOf] at hc1
      simpa [Ev.isNonTermSigOf] using hI.cancelNoNonTerm c (by simpa using hc1)
    · intro p hp
      rw [cancelCount_append p.2 rfl]
      simpa [Ev.isCancelOf] using hI.pendNoCancel p hp
    · intro p hp
      rw [regCount_append p.2 rfl]
      have := hI.pendRegistered p hp
      simp [Ev.isRegOf]
      omega
    · intro c hc1 hc2
      rw [regCount_append c rfl] at hc1
      rw [outcomeCount_append c rfl]
      simp only [Ev.isRegOf] at hc1
      have := hI.removedHasOutcome c (by simpa using hc1) hc2
      omega
    · intro hr c hc1
      rw [regCount_append c rfl] at hc1
      rw [outcomeCount_append c rfl]
      simp only [Ev.isRegOf] at hc1
      have := hI.termOutcome hr c (by simpa using hc1)
      omega
  · have hcs : ¬ (st.closing = true ∨ st.shutdown = true) := by
      by_contra hcon
      rw [registerCall] at hreg
      rw [if_pos (by simpa using hcon)] at hreg
      exact Except.noConfusion hreg
    have hsh : st.shutdown = false := by
      rcases Bool.eq_false_or_eq_true st.shutdown with h1 | h1
      · exact absurd (Or.inr h1) hcs
      · exact h1
    have hr2 : r = (st.seq,
        { st with pending := aupd st.pending st.seq cid,
                  callSeq := aupd st.callSeq cid st.seq,
                  seq := st.seq + 1 }) := by
      rw [registerCall] at hreg
      rw [if_neg hcs] at hreg
      exact (Except.ok.inj hreg).symm
    subst hr2
    rw [hreg] at h
    have h2 : ({ st with
        pending := aupd st.pending st.seq cid,
        callSeq := aupd st.callSeq cid st.seq,
        seq := st.seq + 1,
        phase := aupd st.phase cid Phase.registered,
        events := st.events ++ [Ev.reg cid st.seq] } : CState) = st2 :=
      Option.some.inj h
    obtain rfl := h2
    have hseqne : st.seq ≠ 0 := Nat.pos_iff_ne_zero.mp hI.seqPos
    refine ⟨Nat.le_succ_of_le hI.seqPos, ?_, ?_, ?_, ?_, ?_, ?_, ?_, ?_, ?_,
      ?_, ?_, ?_, ?_, ?_, hI.shutReader, ?_, ?_, ?_, ?_, ?_⟩
    · rw [@regSeqs_append _ st _ rfl]
      rw [hI.regRange]
      obtain ⟨n, hn⟩ : ∃ n, st.seq = n + 1 :=
        ⟨st.seq - 1, (Nat.succ_pred_eq_of_pos hI.seqPos).symm⟩
      rw [hn]
      simp [List.range'_concat, Nat.add_comm]
    · intro p hp
      rcases mem_aupd hp with hp1 | hp1
      · subst hp1
        exact ⟨hI.seqPos, Nat.lt_succ_self _⟩
      · obtain ⟨h1, h2⟩ := hI.pendKeys p hp1
        exact ⟨h1, Nat.lt_succ_of_lt h2⟩
    · exact nodup_keys_aupd hI.pendNodup
    · intro p hp
      rcases mem_aupd hp with hp1 | hp1
      · subst hp1
        simp [getSeq, getD_aupd]
      · have hne : p.2 ≠ cid := by
          intro he
          have := hI.pendSeq p hp1
          rw [he, hseq0] at this
          have := (hI.pendKeys p hp1).1
          omega
        have heq : getSeq st p.2 = p.1 := hI.pendSeq p hp1
        simp only [getSeq, getD_aupd]
        rw [if_neg hne]
        exact heq
    · intro c
      simp only [getSeq, getD_aupd]
      by_cases hcc : c = cid
      · rw [if_pos hcc]
        exact Nat.lt_succ_self _
      · rw [if_neg hcc]
        exact Nat.lt_succ_of_lt (hI.seqBound c)
    · intro c1 c2 h1 h2
      simp only [getSeq, getD_aupd] at h1 h2
      by_cases hc1 : c1 = cid <;> by_cases hc2 : c2 = cid
      · rw [hc1, hc2]
      · rw [if_pos hc1] at h2
        rw [if_neg hc2] at h2
        exact absurd h2.symm (Nat.ne_of_lt (hI.seqBound c2))
      · rw [if_neg hc1] at h1 h2
        rw [if_pos hc2] at h2
        exact absurd h2 (Nat.ne_of_lt (hI.seqBound c1))
      · rw [if_neg hc1] at h1 h2
        rw [if_neg hc2] at h2
        exact hI.getSeqInj c1 c2 h1 h2
    · intro c hcph
      simp only [getPhase, getD_aupd] at hcph
      by_cases hcc : c = cid
      · subst hcc
        exact hlock
      · rw [if_neg hcc] at hcph
        have := hI.lockPhase c hcph
        rw [hlock] at this
        exact absurd (Option.some.inj this) (fun he => hcc (Owner.sender.inj he.symm))
    · intro c _
      exact hsh
    · intro c s hmem
      rcases List.mem_append.mp hmem with hm | hm
      · by_cases hcc : c = cid
        · subst hcc
          have := hnotouch _ hm
          simp [evTouches] at this
        · have := hI.regSeqVal c s hm
          simp only [getSeq, getD_aupd]
          rw [if_neg hcc]
          exact this
      · simp at hm
        obtain ⟨rfl, rfl⟩ := hm
        simp [getSeq, getD_aupd]
    · intro c
      rw [@regCount_append _ st c _ rfl]
      by_cases hcc : c = cid
      · subst hcc
        simp only [getSeq, getD_aupd, if_pos rfl]
        constructor
        · intro hz
          exact absurd hz hseqne
        · intro hz
          simp [Ev.isRegOf] at hz
      · have hbe : (cid == c) = false := by simpa using fun he => hcc he.symm
        simp only [getSeq, getD_aupd]
        rw [if_neg hcc]
        simpa [Ev.isRegOf, hbe] using hI.seqZeroIffUnreg c
    · intro c hcph
      simp only [getPhase, getD_aupd] at hcph
      by_cases hcc : c = cid
      · rw [if_pos hcc] at hcph
        rcases hcph with h1 | h1 <;> exact Phase.noConfusion h1
      · rw [if_neg hcc] at hcph
        obtain ⟨h1, h2⟩ := hI.earlyClean c hcph
        refine ⟨?_, ?_⟩
        · simp only [getSeq, getD_aupd]
          rw [if_neg hcc]
          exact h1
        · intro e he
          rcases List.mem_append.mp he with hm | hm
          · exact h2 e hm
          · simp at hm
            subst hm
            simpa [evTouches] using fun he2 => hcc he2.symm
    · intro c
      rw [@sigCount_append _ st c _ rfl]
      simpa [Ev.isNonTermSigOf, Ev.isTermSigOf] using hI.sigOnce c
    · intro p hp
      rw [@nonTermSigCount_append _ st p.2 _ rfl]
      rcases mem_aupd hp with hp1 | hp1
      · have hp2 : p.2 = cid := by rw [hp1]
        rw [hp2]
        simpa [Ev.isNonTermSigOf, nonTermSigCount] using hnt0
      · simpa [Ev.isNonTermSigOf] using hI.pendNoSig p hp1
    · intro hr c
      rw [@termSigCount_append _ st c _ rfl]
      simpa [Ev.isTermSigOf] using hI.readerNoTerm hr c
    · intro c hc1
      rw [@cancelCount_append _ st c _ rfl] at hc1
      rw [@nonTermSigCount_append _ st c _ rfl]
      simp only [Ev.isCancelOf] at hc1
      simpa [Ev.isNonTermSigOf] using hI.cancelNoNonTerm c (by simpa using hc1)
    · intro p hp
      rw [@cancelCount_append _ st p.2 _ rfl]
      rcases mem_aupd hp with hp1 | hp1
      · have hp2 : p.2 = cid := by rw [hp1]
        rw [hp2]
        simpa [Ev.isCancelOf, cancelCount] using hcan0
      · simpa [Ev.isCancelOf] using hI.pendNoCancel p hp1
    · intro p hp
      rw [@regCount_append _ st p.2 _ rfl]
      rcases mem_aupd hp with hp1 | hp1
      · have hp2 : p.2 = cid := by rw [hp1]
        rw [hp2]
        simp [Ev.isRegOf]
      · have := hI.pendRegistered p hp1
        omega
    · intro c hc1 hc2
      by_cases hcc : c = cid
      · subst hcc
        simp [getSeq, getD_aupd, lookup_aupd_self] at hc2
      · have hbe : (cid == c) = false := by simpa using fun he => hcc he.symm
        rw [@regCount_append _ st c _ rfl] at hc1
        simp only [Ev.isRegOf, hbe, if_false, Nat.add_zero] at hc1
        have hgs : (List.lookup c st.callSeq).getD 0 ≠ st.seq :=
          Nat.ne_of_lt (hI.seqBound c)
        simp only [getSeq, getD_aupd] at hc2
        rw [if_neg hcc] at hc2
        rw [lookup_aupd_ne _ _ _ hgs] at hc2
        have hout := hI.removedHasOutcome c hc1 hc2
        rw [@outcomeCount_append _ st c _ rfl]
        omega
    · intro hr
      have := hI.shutReader.mpr hr
      rw [hsh] at this
      exact absurd this (by simp)

theorem regSeqs_append_nonreg {st2 st : CState} {e : Ev}
    (h : st2.events = st.events ++ [e]) (hne : ∀ c2 s2, e ≠ Ev.reg c2 s2) :
    regSeqs st2 = regSeqs st := by
  cases e
  case reg c2 s2 => exact absurd rfl (hne c2 s2)
  all_goals simp [regSeqs, h, List.filterMap_append]

/-- Invariant preservation for the remove-and-signal pattern of the
receive loop: the pending entry for sequence id s holds call c; it is
removed and one non-terminate completion signal for c is appended. -/
theorem inv_reader_signal {st : CState} {s c : Nat} {e : Ev} (hI : Inv st)
    (hrun : st.reader = .running)
    (hlk : List.lookup s st.pending = some c)
    (h1 : ∀ c2, Ev.isNonTermSigOf c2 e = (c == c2))
    (h2 : ∀ c2, Ev.isTermSigOf c2 e = false)
    (h3 : ∀ c2, Ev.isRegOf c2 e = false)
    (h4 : ∀ c2, Ev.isCancelOf c2 e = false)
    (h5 : ∀ c2, evTouches c2 e = (c == c2))
    (hne : ∀ c2 s2, e ≠ Ev.reg c2 s2) :
    Inv { st with
      pending := st.pending.filter (fun p => p.1 != s),
      events := st.events ++ [e] } := by
  have hmem : (s, c) ∈ st.pending := lookup_mem hlk
  have hseqc : getSeq st c = s := hI.pendSeq _ hmem
  have hkey : 1 ≤ s ∧ s < st.seq := hI.pendKeys _ hmem
  have hnt0 : nonTermSigCount st c = 0 := hI.pendNoSig _ hmem
  have hnterm : st.reader ≠ .terminated := by
    rw [hrun]
    simp
  have hterm0 : termSigCount st c = 0 := hI.readerNoTerm hnterm c
  have hcan0 : cancelCount st c = 0 := hI.pendNoCancel _ hmem
  have honlyc : ∀ p ∈ st.pending, p.2 = c → p.1 = s := by
    intro p hp he
    have := hI.pendSeq p hp
    rw [he, hseqc] at this
    exact this.symm
  refine ⟨hI.seqPos, ?_, ?_, ?_, ?_, hI.seqBound, hI.getSeqInj, hI.lockPhase,
    hI.regNoShut, ?_, ?_, ?_, ?_, ?_, ?_, hI.shutReader, ?_, ?_, ?_, ?_, ?_⟩
  · rw [@regSeqs_append_nonreg _ st _ rfl hne]
    simpa using hI.regRange
  · intro p hp
    exact hI.pendKeys p (List.mem_of_mem_filter hp)
  · exact nodup_keys_filter _ hI.pendNodup
  · intro p hp
    exact hI.pendSeq p (List.mem_of_mem_filter hp)
  · intro c2 s2 hm
    rcases List.mem_append.mp hm with hm1 | hm1
    · exact hI.regSeqVal c2 s2 hm1
    · rw [List.mem_singleton] at hm1
      have := h3 c2
      rw [← hm1] at this
      simp [Ev.isRegOf] at this
  · intro c2
    rw [@regCount_append _ st c2 _ rfl, h3 c2]
    simpa using hI.seqZeroIffUnreg c2
  · intro c2 hph2
    obtain ⟨he1, he2⟩ := hI.earlyClean c2 hph2
    refine ⟨he1, ?_⟩
    intro ev hev
    rcases List.mem_append.mp hev with hm1 | hm1
    · exact he2 ev hm1
    · rw [List.mem_singleton] at hm1
      subst hm1
      rw [h5 c2]
      rw [beq_eq_false_iff_ne]
      intro hec
      rw [← hec] at he1
      rw [hseqc] at he1
      omega
  · intro c2
    rw [@sigCount_append _ st c2 _ rfl, h1 c2, h2 c2]
    by_cases hcc : c2 = c
    · subst hcc
      have : sigCount st c2 = 0 := by
        rw [sigCount, hnt0, hterm0]
      simp [this]
    · have hbe : (c == c2) = false := by simpa using fun he => hcc he.symm
      simpa [hbe] using hI.sigOnce c2
  · intro p hp
    rw [@nonTermSigCount_append _ st p.2 _ rfl, h1 p.2]
    have hpmem := List.mem_of_mem_filter hp
    have hpne : p.2 ≠ c := by
      intro he
      have := honlyc p hpmem he
      have hpf := (List.mem_filter.mp hp).2
      rw [this] at hpf
      simp at hpf
    have hbe : (c == p.2) = false := by simpa using fun he => hpne he.symm
    simpa [hbe] using hI.pendNoSig p hpmem
  · intro _ c2
    rw [@termSigCount_append _ st c2 _ rfl, h2 c2]
    simpa using hI.readerNoTerm hnterm c2
  · intro c2 hc1
    rw [@cancelCount_append _ st c2 _ rfl, h4 c2] at hc1
    simp at hc1
    rw [@nonTermSigCount_append _ st c2 _ rfl, h1 c2]
    by_cases hcc : c2 = c
    · subst hcc
      rw [hcan0] at hc1
      omega
    · have hbe : (c == c2) = false := by simpa using fun he => hcc he.symm
      simpa [hbe] using hI.cancelNoNonTerm c2 hc1
  · intro p hp
    rw [@cancelCount_append _ st p.2 _ rfl, h4 p.2]
    simpa using hI.pendNoCancel p (List.mem_of_mem_filter hp)
  · intro p hp
    rw [@regCount_append _ st p.2 _ rfl, h3 p.2]
    have := hI.pendRegistered p (List.mem_of_mem_filter hp)
    simpa using this
  · intro c2 hc1 hc2
    rw [@regCount_append _ st c2 _ rfl, h3 c2] at hc1
    simp at hc1
    rw [@outcomeCount_append _ st c2 _ rfl, h1 c2, h2 c2, h4 c2]
    by_cases hcc : c2 = c
    · subst hcc
      simp
    · have hbe : (c == c2) = false := by simpa using fun he => hcc he.symm
      have hc2b : List.lookup (getSeq st c2)
          (st.pending.filter (fun p => p.1 != s)) = none := hc2
      have hgne : getSeq st c2 ≠ s := by
        intro he
        have hnz : getSeq st c2 ≠ 0 := by
          intro hz
          rw [(hI.seqZeroIffUnreg c2).mp hz] at hc1
          omega
        exact hcc (hI.getSeqInj c2 c hnz (by rw [he, hseqc]))
      rw [lookup_filterKey_ne _ _ hgne] at hc2b
      have := hI.removedHasOutcome c2 hc1 hc2b
      simp [hbe]
      omega
  · intro hr
    have hr2 : st.reader = RState.terminated := hr
    rw [hrun] at hr2
    exact RState.noConfusion hr2

theorem inv_recvOk {st st2 : CState} {s : Nat} (hI : Inv st)
    (h : step st (.recvOk s) = some st2) : Inv st2 := by
  simp only [step, removeCall] at h
  split_ifs at h with hc
  rcases hlk : List.lookup s st.pending with _ | c
  · rw [hlk] at h
    obtain rfl := Option.some.inj h
    rw [filterKey_eq_self hlk]
    exact hI
  · rw [hlk] at h
    obtain rfl := Option.some.inj h
    exact inv_reader_signal hI hc hlk (fun c2 => rfl) (fun c2 => rfl)
      (fun c2 => rfl) (fun c2 => rfl) (fun c2 => rfl)
      (fun c2 s2 he => Ev.noConfusion he)

theorem inv_recvErr {st st2 : CState} {s : Nat} {msg : String} (hI : Inv st)
    (h : step st (.recvErr s msg) = some st2) : Inv st2 := by
  simp only [step, removeCall] at h
  split_ifs at h with hc
  rcases hlk : List.lookup s st.pending with _ | c
  · rw [hlk] at h
    obtain rfl := Option.some.inj h
    rw [filterKey_eq_self hlk]
    exact hI
  · rw [hlk] at h
    obtain rfl := Option.some.inj h
    exact inv_reader_signal hI hc hlk (fun c2 => rfl) (fun c2 => rfl)
      (fun c2 => rfl) (fun c2 => rfl) (fun c2 => rfl)
      (fun c2 s2 he => Ev.noConfusion he)

/-- Invariant preservation for ending a send: the phase moves to finished
and the sending mutex is released; nothing else changes. -/
theorem inv_finishRelease {st : CState} {cid : Nat} (hI : Inv st)
    (hlock : st.sendLock = some (.sender cid)) :
    Inv { st with phase := aupd st.phase cid Phase.finished, sendLock := none } := by
  refine ⟨hI.seqPos, hI.regRange, hI.pendKeys, hI.pendNodup, hI.pendSeq,
    hI.seqBound, hI.getSeqInj, ?_, ?_, hI.regSeqVal, hI.seqZeroIffUnreg, ?_,
    hI.sigOnce, hI.pendNoSig, hI.readerNoTerm, hI.shutReader,
    hI.cancelNoNonTerm, hI.pendNoCancel, hI.pendRegistered,
    hI.removedHasOutcome, hI.termOutcome⟩
  · intro c hcph
    simp only [getPhase, getD_aupd] at hcph
    by_cases hcc : c = cid
    · rw [if_pos hcc] at hcph
      rcases hcph with h1 | h1 | h1 <;> exact Phase.noConfusion h1
    · rw [if_neg hcc] at hcph
      have := hI.lockPhase c hcph
      rw [hlock] at this
      exact absurd (Option.some.inj this) (fun he => hcc (Owner.sender.inj he.symm))
  · intro c hcph
    simp only [getPhase, getD_aupd] at hcph
    by_cases hcc : c = cid
    · rw [if_pos hcc] at hcph
      rcases hcph with h1 | h1 <;> exact Phase.noConfusion h1
    · rw [if_neg hcc] at hcph
      exact hI.regNoShut c hcph
  · intro c hcph
    simp only [getPhase, getD_aupd] at hcph
    by_cases hcc : c = cid
    · rw [if_pos hcc] at hcph
      rcases hcph with h1 | h1 <;> exact Phase.noConfusion h1
    · rw [if_neg hcc] at hcph
      exact hI.earlyClean c hcph

theorem inv_sendFailRemove {st st2 : CState} {cid : Nat} {msg : String}
    (hI : Inv st) (h : step st (.sendFailRemove cid msg) = some st2) :
    Inv st2 := by
  simp only [step, removeCall] at h
  split_ifs at h with hc
  obtain ⟨hlock, hph⟩ := hc
  rcases hlk : List.lookup (getSeq st cid) st.pending with _ | c
  · rw [hlk] at h
    obtain rfl := Option.some.inj h
    rw [filterKey_eq_self hlk]
    exact inv_finishRelease hI hlock
  · rw [hlk] at h
    obtain rfl := Option.some.inj h
    have hmem : (getSeq st cid, c) ∈ st.pending := lookup_mem hlk
    have hknz : getSeq st cid ≠ 0 := by
      have := (hI.pendKeys _ hmem).1
      omega
    have hcc0 : c = cid := by
      refine (hI.getSeqInj cid c hknz ?_).symm
      exact (hI.pendSeq _ hmem).symm
    subst hcc0
    have hsh : st.shutdown = false := hI.regNoShut c (Or.inr hph)
    have hnterm : st.reader ≠ .terminated := by
      intro hr
      have := hI.shutReader.mpr hr
      rw [hsh] at this
      exact absurd this (by simp)
    have hnt0 : nonTermSigCount st c = 0 := hI.pendNoSig _ hmem
    have hterm0 : termSigCount st c = 0 := hI.readerNoTerm hnterm c
    have hcan0 : cancelCount st c = 0 := hI.pendNoCancel _ hmem
    have honlyc : ∀ p ∈ st.pending, p.2 = c → p.1 = getSeq st c := by
      intro p hp he
      rw [← he]
      exact (hI.pendSeq p hp).symm
    refine ⟨hI.seqPos, ?_, ?_, ?_, ?_, hI.seqBound, hI.getSeqInj, ?_, ?_, ?_,
      ?_, ?_, ?_, ?_, ?_, hI.shutReader, ?_, ?_, ?_, ?_, ?_⟩
    · rw [@regSeqs_append_nonreg _ st _ rfl (fun c2 s2 he => Ev.noConfusion he)]
      simpa using hI.regRange
    · intro p hp
      exact hI.pendKeys p (List.mem_of_mem_filter hp)
    · exact nodup_keys_filter _ hI.pendNodup
    · intro p hp
      exact hI.pendSeq p (List.mem_of_mem_filter hp)
    · intro c2 hcph
      simp only [getPhase, getD_aupd] at hcph
      by_cases hcc : c2 = c
      · rw [if_pos hcc] at hcph
        rcases hcph with h1 | h1 | h1 <;> exact Phase.noConfusion h1
      · rw [if_neg hcc] at hcph
        have := hI.lockPhase c2 hcph
        rw [hlock] at this
        exact absurd (Option.some.inj this) (fun he => hcc (Owner.sender.inj he.symm))
    · intro c2 hcph
      simp only [getPhase, getD_aupd] at hcph
      by_cases hcc : c2 = c
      · rw [if_pos hcc] at hcph
        rcases hcph with h1 | h1 <;> exact Phase.noConfusion h1
      · rw [if_neg hcc] at hcph
        exact hI.regNoShut c2 hcph
    · intro c2 s2 hm
      rcases List.mem_append.mp hm with hm1 | hm1
      · exact hI.regSeqVal c2 s2 hm1
      · rw [List.mem_singleton] at hm1
        exact Ev.noConfusion hm1
    · intro c2
      rw [@regCount_append _ st c2 _ rfl]
      simpa [Ev.isRegOf] using hI.seqZeroIffUnreg c2
    · intro c2 hcph
      simp only [getPhase, getD_aupd] at hcph
      by_cases hcc : c2 = c
      · rw [if_pos hcc] at hcph
        rcases hcph with h1 | h1 <;> exact Phase.noConfusion h1
      · rw [if_neg hcc] at hcph
        obtain ⟨he1, he2⟩ := hI.earlyClean c2 hcph
        refine ⟨he1, ?_⟩
        intro ev hev
        rcases List.mem_append.mp hev with hm1 | hm1
        · exact he2 ev hm1
        · rw [List.mem_singleton] at hm1
          subst hm1
          simpa [evTouches] using fun he => hcc he.symm
    · intro c2
      rw [@sigCount_append _ st c2 _ rfl]
      by_cases hcc : c2 = c
      · subst hcc
        have hz : sigCount st c2 = 0 := by
          rw [sigCount, hnt0, hterm0]
        simp [hz, Ev.isNonTermSigOf, Ev.isTermSigOf]
      · have hbe : (c == c2) = false := by simpa using fun he => hcc he.symm
        simpa [Ev.isNonTermSigOf, Ev.isTermSigOf, hbe] using hI.sigOnce c2
    · intro p hp
      rw [@nonTermSigCount_append _ st p.2 _ rfl]
      have hpmem := List.mem_of_mem_filter hp
      have hpne : p.2 ≠ c := by
        intro he
        have := honlyc p hpmem he
        have hpf := (List.mem_filter.mp hp).2
        rw [this] at hpf
        simp at hpf
      have hbe : (c == p.2) = false := by simpa using fun he => hpne he.symm
      simpa [Ev.isNonTermSigOf, hbe] using hI.pendNoSig p hpmem
    · intro hr c2
      rw [@termSigCount_append _ st c2 _ rfl]
      simpa [Ev.isTermSigOf] using hI.readerNoTerm hnterm c2
    · intro c2 hc1
      rw [@cancelCount_append _ st c2 _ rfl] at hc1
      simp [Ev.isCancelOf] at hc1
      rw [@nonTermSigCount_append _ st c2 _ rfl]
      by_cases hcc : c2 = c
      · subst hcc
        rw [hcan0] at hc1
        omega
      · have hbe : (c == c2) = false := by simpa using fun he => hcc he.symm
        simpa [Ev.isNonTermSigOf, hbe] using hI.cancelNoNonTerm c2 hc1
    · intro p hp
      rw [@cancelCount_append _ st p.2 _ rfl]
      simpa [Ev.isCancelOf] using hI.pendNoCancel p (List.mem_of_mem_filter hp)
    · intro p hp
      rw [@regCount_append _ st p.2 _ rfl]
      have := hI.pendRegistered p (List.mem_of_mem_filter hp)
      simpa [Ev.isRegOf] using this
    · intro c2 hc1 hc2
      rw [@regCount_append _ st c2 _ rfl] at hc1
      simp [Ev.isRegOf] at hc1
      rw [@outcomeCount_append _ st c2 _ rfl]
      by_cases hcc : c2 = c
      · subst hcc
        simp [Ev.isNonTermSigOf, Ev.isTermSigOf, Ev.isCancelOf]
      · have hbe : (c == c2) = false := by simpa using fun he => hcc he.symm
        have hc2b : List.lookup (getSeq st c2)
            (st.pending.filter (fun p => p.1 != getSeq st c)) = none := hc2
        have hgne : getSeq st c2 ≠ getSeq st c := by
          intro he
          have hnz : getSeq st c2 ≠ 0 := by
            intro hz
            rw [(hI.seqZeroIffUnreg c2).mp hz] at hc1
            omega
          exact hcc (hI.getSeqInj c2 c hnz he)
        rw [lookup_filterKey_ne _ _ hgne] at hc2b
        have := hI.removedHasOutcome c2 hc1 hc2b
        simp [Ev.isNonTermSigOf, Ev.isTermSigOf, Ev.isCancelOf, hbe]
        omega
    · intro hr
      have hr2 : st.reader = RState.terminated := hr
      exact absurd hr2 hnterm

theorem nonTermSigCount_append_terms {st2 st : CState} (c : Nat)
    {l : List (Nat × Nat)} {msg : String}
    (h : st2.events = st.events ++ l.map (fun p => Ev.sigTerm p.2 msg)) :
    nonTermSigCount st2 c = nonTermSigCount st c := by
  rw [nonTermSigCount, h, List.filter_append, List.length_append,
    nonTermSig_of_map]
  simp [nonTermSigCount]

theorem termSigCount_append_terms {st2 st : CState} (c : Nat)
    {l : List (Nat × Nat)} {msg : String}
    (h : st2.events = st.events ++ l.map (fun p => Ev.sigTerm p.2 msg)) :
    termSigCount st2 c = termSigCount st c + (l.map Prod.snd).count c := by
  rw [termSigCount, h, List.filter_append, List.length_append, termSig_of_map,
    termSigCount]

theorem regCount_append_terms {st2 st : CState} (c : Nat)
    {l : List (Nat × Nat)} {msg : String}
    (h : st2.events = st.events ++ l.map (fun p => Ev.sigTerm p.2 msg)) :
    regCount st2 c = regCount st c := by
  rw [regCount, h, List.filter_append, List.length_append, regOf_of_map]
  simp [regCount]

theorem cancelCount_append_terms {st2 st : CState} (c : Nat)
    {l : List (Nat × Nat)} {msg : String}
    (h : st2.events = st.events ++ l.map (fun p => Ev.sigTerm p.2 msg)) :
    cancelCount st2 c = cancelCount st c := by
  rw [cancelCount, h, List.filter_append, List.length_append, cancelOf_of_map]
  simp [cancelCount]

theorem outcomeCount_append_terms {st2 st : CState} (c : Nat)
    {l : List (Nat × Nat)} {msg : String}
    (h : st2.events = st.events ++ l.map (fun p => Ev.sigTerm p.2 msg)) :
    outcomeCount st2 c = outcomeCount st c + (l.map Prod.snd).count c := by
  rw [outcomeCount, outcomeCount, sigCount, sigCount,
    nonTermSigCount_append_terms c h, termSigCount_append_terms c h,
    cancelCount_append_terms c h]
  omega

theorem regSeqs_append_terms {st2 st : CState}
    {l : List (Nat × Nat)} {msg : String}
    (h : st2.events = st.events ++ l.map (fun p => Ev.sigTerm p.2 msg)) :
    regSeqs st2 = regSeqs st := by
  rw [regSeqs, h, List.filterMap_append]
  have h2 : List.filterMap (fun e =>
      match e with
      | Ev.reg _ s => some s
      | _ => none) (l.map (fun p => Ev.sigTerm p.2 msg)) = [] := by
    rw [List.filterMap_eq_nil_iff]
    intro e he
    rw [List.mem_map] at he
    obtain ⟨p, -, rfl⟩ := he
    rfl
  rw [h2, List.append_nil, regSeqs]

theorem inv_terminate {st st2 : CState} {msg : String} (hI : Inv st)
    (h : step st (.terminate msg) = some st2) : Inv st2 := by
  simp only [step, terminateCalls] at h
  split_ifs at h with hc
  obtain ⟨hbrk, hlock⟩ := hc
  obtain rfl := Option.some.inj h
  have hsh : st.shutdown = false := by
    rcases Bool.eq_false_or_eq_true st.shutdown with h1 | h1
    · rw [hI.shutReader.mp h1] at hbrk
      exact RState.noConfusion hbrk
    · exact h1
  have hnterm : st.reader ≠ .terminated := by
    rw [hbrk]
    simp
  have hsnodup := pend_snd_nodup st hI.pendNodup hI.pendSeq
  have hcount1 : ∀ c, (st.pending.map Prod.snd).count c ≤ 1 :=
    fun c => List.nodup_iff_count_le_one.mp hsnodup c
  refine ⟨hI.seqPos, ?_, hI.pendKeys, hI.pendNodup, hI.pendSeq, hI.seqBound,
    hI.getSeqInj, ?_, ?_, ?_, ?_, ?_, ?_, ?_, ?_, ?_, ?_, ?_, ?_, ?_, ?_⟩
  · rw [@regSeqs_append_terms _ st _ _ rfl]
    simpa using hI.regRange
  · intro c hcph
    have := hI.lockPhase c hcph
    rw [hlock] at this
    exact Option.noConfusion this
  · intro c hcph
    have := hI.lockPhase c (Or.inr hcph)
    rw [hlock] at this
    exact Option.noConfusion this
  · intro c s hm
    rcases List.mem_append.mp hm with hm1 | hm1
    · exact hI.regSeqVal c s hm1
    · rw [List.mem_map] at hm1
      obtain ⟨p, -, hpe⟩ := hm1
      exact Ev.noConfusion hpe
  · intro c
    rw [@regCount_append_terms _ st c _ _ rfl]
    exact hI.seqZeroIffUnreg c
  · intro c hcph
    rcases hcph with hid | hlocked
    · obtain ⟨hs0, hnt⟩ := hI.earlyClean c (Or.inl hid)
      refine ⟨hs0, ?_⟩
      intro ev hev
      rcases List.mem_append.mp hev with hm1 | hm1
      · exact hnt ev hm1
      · rw [List.mem_map] at hm1
        obtain ⟨p, hp, rfl⟩ := hm1
        have hne : p.2 ≠ c := by
          intro he
          have h1 := hI.pendSeq p hp
          rw [he, hs0] at h1
          have := (hI.pendKeys p hp).1
          omega
        simpa [evTouches] using hne
    · have := hI.lockPhase c (Or.inl hlocked)
      rw [hlock] at this
      exact Option.noConfusion this
  · intro c
    rw [sigCount, @nonTermSigCount_append_terms _ st c _ _ rfl,
      @termSigCount_append_terms _ st c _ _ rfl]
    by_cases hm : c ∈ st.pending.map Prod.snd
    · obtain ⟨p, hp, hpc⟩ := List.mem_map.mp hm
      have hnt0 : nonTermSigCount st c = 0 := by
        rw [← hpc]
        exact hI.pendNoSig p hp
      have ht0 : termSigCount st c = 0 := hI.readerNoTerm hnterm c
      have := hcount1 c
      omega
    · have : (st.pending.map Prod.snd).count c = 0 :=
        List.count_eq_zero.mpr hm
      have hs := hI.sigOnce c
      rw [sigCount] at hs
      omega
  · intro p hp
    rw [@nonTermSigCount_append_terms _ st p.2 _ _ rfl]
    exact hI.pendNoSig p hp
  · intro hr
    exact absurd rfl hr
  · exact ⟨fun _ => rfl, fun _ => rfl⟩
  · intro c hc1
    rw [@cancelCount_append_terms _ st c _ _ rfl] at hc1
    rw [@nonTermSigCount_append_terms _ st c _ _ rfl]
    exact hI.cancelNoNonTerm c hc1
  · intro p hp
    rw [@cancelCount_append_terms _ st p.2 _ _ rfl]
    exact hI.pendNoCancel p hp
  · intro p hp
    rw [@regCount_append_terms _ st p.2 _ _ rfl]
    exact hI.pendRegistered p hp
  · intro c hc1 hc2
    rw [@regCount_append_terms _ st c _ _ rfl] at hc1
    have hc2b : List.lookup (getSeq st c) st.pending = none := hc2
    have := hI.removedHasOutcome c hc1 hc2b
    rw [@outcomeCount_append_terms _ st c _ _ rfl]
    omega
  · intro _ c hc1
    rw [@regCount_append_terms _ st c _ _ rfl] at hc1
    rw [@outcomeCount_append_terms _ st c _ _ rfl]
    rcases hlkc : List.lookup (getSeq st c) st.pending with _ | c0
    · have := hI.removedHasOutcome c hc1 hlkc
      omega
    · have hmem := lookup_mem hlkc
      have hnz : getSeq st c ≠ 0 := by
        intro hz
        rw [(hI.seqZeroIffUnreg c).mp hz] at hc1
        omega
      have hc0 : c0 = c := by
        refine hI.getSeqInj c0 c ?_ ?_
        · rw [hI.pendSeq _ hmem]
          exact hnz
        · exact hI.pendSeq _ hmem
      subst hc0
      have hcmem : c0 ∈ st.pending.map Prod.snd := by
        rw [List.mem_map]
        exact ⟨_, hmem, rfl⟩
      have := List.count_pos_iff.mpr hcmem
      omega

theorem inv_cancel {st st2 : CState} {cid : Nat} (hI : Inv st)
    (h : step st (.cancel cid) = some st2) : Inv st2 := by
  simp only [step, removeCall] at h
  split_ifs at h with hph
  rcases hlk : List.lookup (getSeq st cid) st.pending with _ | c
  · rw [hlk] at h
    obtain rfl := Option.some.inj h
    rw [filterKey_eq_self hlk]
    refine ⟨hI.seqPos, hI.regRange, hI.pendKeys, hI.pendNodup, hI.pendSeq,
      hI.seqBound, hI.getSeqInj, ?_, ?_, hI.regSeqVal, hI.seqZeroIffUnreg, ?_,
      hI.sigOnce, hI.pendNoSig, hI.readerNoTerm, hI.shutReader,
      hI.cancelNoNonTerm, hI.pendNoCancel, hI.pendRegistered,
      hI.removedHasOutcome, hI.termOutcome⟩
    · intro c2 hcph
      simp only [getPhase, getD_aupd] at hcph
      by_cases hcc : c2 = cid
      · rw [if_pos hcc] at hcph
        rcases hcph with h1 | h1 | h1 <;> exact Phase.noConfusion h1
      · rw [if_neg hcc] at hcph
        exact hI.lockPhase c2 hcph
    · intro c2 hcph
      simp only [getPhase, getD_aupd] at hcph
      by_cases hcc : c2 = cid
      · rw [if_pos hcc] at hcph
        rcases hcph with h1 | h1 <;> exact Phase.noConfusion h1
      · rw [if_neg hcc] at hcph
        exact hI.regNoShut c2 hcph
    · intro c2 hcph
      simp only [getPhase, getD_aupd] at hcph
      by_cases hcc : c2 = cid
      · rw [if_pos hcc] at hcph
        rcases hcph with h1 | h1 <;> exact Phase.noConfusion h1
      · rw [if_neg hcc] at hcph
        exact hI.earlyClean c2 hcph
  · rw [hlk] at h
    obtain rfl := Option.some.inj h
    have hmem : (getSeq st cid, c) ∈ st.pending := lookup_mem hlk
    have hknz : getSeq st cid ≠ 0 := by
      have := (hI.pendKeys _ hmem).1
      omega
    have hcc0 : c = cid := by
      refine (hI.getSeqInj cid c hknz ?_).symm
      exact (hI.pendSeq _ hmem).symm
    subst hcc0
    have hnt0 : nonTermSigCount st c = 0 := hI.pendNoSig _ hmem
    have hcan0 : cancelCount st c = 0 := hI.pendNoCancel _ hmem
    have honlyc : ∀ p ∈ st.pending, p.2 = c → p.1 = getSeq st c := by
      intro p hp he
      rw [← he]
      exact (hI.pendSeq p hp).symm
    refine ⟨hI.seqPos, ?_, ?_, ?_, ?_, hI.seqBound, hI.getSeqInj, ?_, ?_, ?_,
      ?_, ?_, ?_, ?_, ?_, hI.shutReader, ?_, ?_, ?_, ?_, ?_⟩
    · rw [@regSeqs_append_nonreg _ st _ rfl (fun c2 s2 he => Ev.noConfusion he)]
      simpa using hI.regRange
    · intro p hp
      exact hI.pendKeys p (List.mem_of_mem_filter hp)
    · exact nodup_keys_filter _ hI.pendNodup
    · intro p hp
      exact hI.pendSeq p (List.mem_of_mem_filter hp)
    · intro c2 hcph
      simp only [getPhase, getD_aupd] at hcph
      by_cases hcc : c2 = c
      · rw [if_pos hcc] at hcph
        rcases hcph with h1 | h1 | h1 <;> exact Phase.noConfusion h1
      · rw [if_neg hcc] at hcph
        exact hI.lockPhase c2 hcph
    · intro c2 hcph
      simp only [getPhase, getD_aupd] at hcph
      by_cases hcc : c2 = c
      · rw [if_pos hcc] at hcph
        rcases hcph with h1 | h1 <;> exact Phase.noConfusion h1
      · rw [if_neg hcc] at hcph
        exact hI.regNoShut c2 hcph
    · intro c2 s2 hm
      rcases List.mem_append.mp hm with hm1 | hm1
      · exact hI.regSeqVal c2 s2 hm1
      · rw [List.mem_singleton] at hm1
        exact Ev.noConfusion hm1
    · intro c2
      rw [@regCount_append _ st c2 _ rfl]
      simpa [Ev.isRegOf] using hI.seqZeroIffUnreg c2
    · intro c2 hcph
      simp only [getPhase, getD_aupd] at hcph
      by_cases hcc : c2 = c
      · rw [if_pos hcc] at hcph
        rcases hcph with h1 | h1 <;> exact Phase.noConfusion h1
      · rw [if_neg hcc] at hcph
        obtain ⟨he1, he2⟩ := hI.earlyClean c2 hcph
        refine ⟨he1, ?_⟩
        intro ev hev
        rcases List.mem_append.mp hev with hm1 | hm1
        · exact he2 ev hm1
        · rw [List.mem_singleton] at hm1
          subst hm1
          simpa [evTouches] using fun he => hcc he.symm
    · intro c2
      rw [@sigCount_append _ st c2 _ rfl]
      simpa [Ev.isNonTermSigOf, Ev.isTermSigOf] using hI.sigOnce c2
    · intro p hp
      rw [@nonTermSigCount_append _ st p.2 _ rfl]
      simpa [Ev.isNonTermSigOf] using
        hI.pendNoSig p (List.mem_of_mem_filter hp)
    · intro hr c2
      rw [@termSigCount_append _ st c2 _ rfl]
      have hr2 : st.reader ≠ RState.terminated := hr
      simpa [Ev.isTermSigOf] using hI.readerNoTerm hr2 c2
    · intro c2 hc1
      rw [@cancelCount_append _ st c2 _ rfl] at hc1
      rw [@nonTermSigCount_append _ st c2 _ rfl]
      by_cases hcc : c2 = c
      · subst hcc
        simpa [Ev.isNonTermSigOf] using hnt0
      · have hbe : (c == c2) = false := by simpa using fun he => hcc he.symm
        simp [Ev.isCancelOf, hbe] at hc1
        simpa [Ev.isNonTermSigOf] using hI.cancelNoNonTerm c2 hc1
    · intro p hp
      rw [@cancelCount_append _ st p.2 _ rfl]
      have hpmem := List.mem_of_mem_filter hp
      have hpne : p.2 ≠ c := by
        intro he
        have := honlyc p hpmem he
        have hpf := (List.mem_filter.mp hp).2
        rw [this] at hpf
        simp at hpf
      have hbe : (c == p.2) = false := by simpa using fun he => hpne he.symm
      simpa [Ev.isCancelOf, hbe] using hI.pendNoCancel p hpmem
    · intro p hp
      rw [@regCount_append _ st p.2 _ rfl]
      simpa [Ev.isRegOf] using hI.pendRegistered p (List.mem_of_mem_filter hp)
    · intro c2 hc1 hc2
      rw [@regCount_append _ st c2 _ rfl] at hc1
      simp [Ev.isRegOf] at hc1
      rw [@outcomeCount_append _ st c2 _ rfl]
      by_cases hcc : c2 = c
      · subst hcc
        simp [Ev.isNonTermSigOf, Ev.isTermSigOf, Ev.isCancelOf]
      · have hbe : (c == c2) = false := by simpa using fun he => hcc he.symm
        have hc2b : List.lookup (getSeq st c2)
            (st.pending.filter (fun p => p.1 != getSeq st c)) = none := hc2
        have hgne : getSeq st c2 ≠ getSeq st c := by
          intro he
          have hnz : getSeq st c2 ≠ 0 := by
            intro hz
            rw [(hI.seqZeroIffUnreg c2).mp hz] at hc1
            omega
          exact hcc (hI.getSeqInj c2 c hnz he)
        rw [lookup_filterKey_ne _ _ hgne] at hc2b
        have := hI.removedHasOutcome c2 hc1 hc2b
        simp [Ev.isNonTermSigOf, Ev.isTermSigOf, Ev.isCancelOf, hbe]
        omega
    · intro hr c2 hc1
      rw [@regCount_append _ st c2 _ rfl] at hc1
      simp [Ev.isRegOf] at hc1
      have hr2 : st.reader = RState.terminated := hr
      have := hI.termOutcome hr2 c2 hc1
      rw [@outcomeCount_append _ st c2 _ rfl]
      omega

/-- Every atomic action preserves the client invariant. -/
theorem stepInv {st st2 : CState} {a : Act} (hI : Inv st)
    (h : step st a = some st2) : Inv st2 := by
  cases a with
  | goStart cid => exact inv_goStart hI h
  | sendRegister cid => exact inv_sendRegister hI h
  | sendWriteOk cid => exact inv_sendWriteOk hI h
  | sendWriteFail cid => exact inv_sendWriteFail hI h
  | sendFailRemove cid msg => exact inv_sendFailRemove hI h
  | recvOk s => exact inv_recvOk hI h
  | recvErr s msg => exact inv_recvErr hI h
  | readerBreak => exact inv_readerBreak hI h
  | terminate msg => exact inv_terminate hI h
  | closeAct => exact inv_closeAct hI h
  | cancel cid => exact inv_cancel hI h

theorem runInvAux : ∀ (acts : List Act) (s0 st : CState), Inv s0 →
    acts.foldlM step s0 = some st → Inv st := by
  intro acts
  induction acts with
  | nil =>
    intro s0 st h0 h
    rw [List.foldlM_nil] at h
    exact (Option.some.inj h) ▸ h0
  | cons a rest ih =>
    intro s0 st h0 h
    rw [List.foldlM_cons] at h
    rcases hs1 : step s0 a with _ | s1
    · rw [hs1] at h
      exact Option.noConfusion h
    · rw [hs1] at h
      exact ih s1 st (stepInv h0 hs1) h

/-- Every state reachable by the client transition system satisfies the
invariant. -/
theorem runInv {acts : List Act} {st : CState}
    (h : runClient acts = some st) : Inv st :=
  runInvAux acts initClient st invInit h

theorem hstepGood {timeout : Nat} {fmtDur : Nat → String}
    {callErr : Option String} {h : Header} {s s2 : HState} {lbl : HLabel}
    (hg : HGood timeout fmtDur callErr h s)
    (hs : hstep timeout fmtDur callErr h s lbl = some s2) :
    HGood timeout fmtDur callErr h s2 := by
  cases lbl
  case wcall =>
    simp only [hstep] at hs
    split_ifs at hs with hc
    obtain rfl := Option.some.inj hs
    rcases hg with ⟨h1, h2, h3, h4⟩ | ⟨h1, h2, h3, h4⟩ | ⟨h1, h2, h3, h4⟩ |
      ⟨h1, h2, h4⟩ | ⟨h1, h2, h4⟩ | ⟨h0, h1, h2, h4⟩ <;>
      simp_all [HGood]
  case meetCalled =>
    simp only [hstep] at hs
    split_ifs at hs with hc
    obtain ⟨hc1, hc2⟩ := hc
    obtain rfl := Option.some.inj hs
    rcases hg with ⟨h1, h2, h3, h4⟩ | ⟨h1, h2, h3, h4⟩ | ⟨h1, h2, h3, h4⟩ |
      ⟨h1, h2, h4⟩ | ⟨h1, h2, h4⟩ | ⟨h0, h1, h2, h4⟩ <;>
      simp_all [HGood]
  case wsend =>
    simp only [hstep] at hs
    rcases callErr with _ | e
    · split_ifs at hs with hc
      obtain rfl := Option.some.inj hs
      rcases hg with ⟨h1, h2, h3, h4⟩ | ⟨h1, h2, h3, h4⟩ | ⟨h1, h2, h3, h4⟩ |
        ⟨h1, h2, h4⟩ | ⟨h1, h2, h4⟩ | ⟨h0, h1, h2, h4⟩ <;>
        simp_all [HGood, workerResponse]
    · split_ifs at hs with hc
      obtain rfl := Option.some.inj hs
      rcases hg with ⟨h1, h2, h3, h4⟩ | ⟨h1, h2, h3, h4⟩ | ⟨h1, h2, h3, h4⟩ |
        ⟨h1, h2, h4⟩ | ⟨h1, h2, h4⟩ | ⟨h0, h1, h2, h4⟩ <;>
        simp_all [HGood, workerResponse]
  case meetSent =>
    simp only [hstep] at hs
    split_ifs at hs with hc
    obtain ⟨hc1, hc2⟩ := hc
    obtain rfl := Option.some.inj hs
    rcases hg with ⟨h1, h2, h3, h4⟩ | ⟨h1, h2, h3, h4⟩ | ⟨h1, h2, h3, h4⟩ |
      ⟨h1, h2, h4⟩ | ⟨h1, h2, h4⟩ | ⟨h0, h1, h2, h4⟩ <;>
      simp_all [HGood]
  case timerFire =>
    simp only [hstep] at hs
    split_ifs at hs with hc
    obtain ⟨hc1, hc2⟩ := hc
    obtain rfl := Option.some.inj hs
    rcases hg with ⟨h1, h2, h3, h4⟩ | ⟨h1, h2, h3, h4⟩ | ⟨h1, h2, h3, h4⟩ |
      ⟨h1, h2, h4⟩ | ⟨h1, h2, h4⟩ | ⟨h0, h1, h2, h4⟩ <;>
      simp_all [HGood]

theorem hrunGoodAux (timeout : Nat) (fmtDur : Nat → String)
    (callErr : Option String) (h : Header) :
    ∀ (sched : List HLabel) (s0 s : HState),
      HGood timeout fmtDur callErr h s0 →
      sched.foldlM (hstep timeout fmtDur callErr h) s0 = some s →
      HGood timeout fmtDur callErr h s := by
  intro sched
  induction sched with
  | nil =>
    intro s0 s h0 hr
    rw [List.foldlM_nil] at hr
    exact (Option.some.inj hr) ▸ h0
  | cons l rest ih =>
    intro s0 s h0 hr
    rw [List.foldlM_cons] at hr
    rcases hs1 : hstep timeout fmtDur callErr h s0 l with _ | s1
    · rw [hs1] at hr
      exact Option.noConfusion hr
    · rw [hs1] at hr
      exact ih s1 s (hstepGood h0 hs1) hr

theorem hrunGood {timeout : Nat} {fmtDur : Nat → String}
    {callErr : Option String} {h : Header} {sched : List HLabel} {s : HState}
    (hr : hrun timeout fmtDur callErr h sched = some s) :
    HGood timeout fmtDur callErr h s := by
  refine hrunGoodAux timeout fmtDur callErr h sched (hinit h) s ?_ hr
  rw [HGood, hinit]
  simp

theorem dstep_no_timer {s s2 : DState} {lbl : DLabel}
    (hg : s.dpc ≠ .dTimedOut) (hs : dstep false s lbl = some s2) :
    s2.dpc ≠ .dTimedOut := by
  cases lbl <;> simp only [dstep] at hs
  · split_ifs at hs with hc
    obtain rfl := Option.some.inj hs
    exact hg
  · split_ifs at hs with hc
    obtain rfl := Option.some.inj hs
    simp
  · split_ifs at hs with hc <;> simp_all

theorem drun_no_timer : ∀ (sched : List DLabel) (s0 s : DState),
    s0.dpc ≠ .dTimedOut → sched.foldlM (dstep false) s0 = some s →
    s.dpc ≠ .dTimedOut := by
  intro sched
  induction sched with
  | nil =>
    intro s0 s h0 hr
    rw [List.foldlM_nil] at hr
    exact (Option.some.inj hr) ▸ h0
  | cons l rest ih =>
    intro s0 s h0 hr
    rw [List.foldlM_cons] at hr
    rcases hs1 : dstep false s0 l with _ | s1
    · rw [hs1] at hr
      exact Option.noConfusion hr
    · rw [hs1] at hr
      exact ih s1 s (dstep_no_timer h0 hs1) hr

theorem lastIndexOf_none {cs : List Char} {c : Char}
    (h : lastIndexOf cs c = none) : c ∉ cs := by
  induction cs with
  | nil => simp
  | cons x xs ih =>
    rw [lastIndexOf] at h
    rcases hx : lastIndexOf xs c with _ | i
    · rw [hx] at h
      split_ifs at h with hxc
      intro hm
      rcases List.mem_cons.mp hm with hm1 | hm1
      · exact hxc hm1.symm
      · exact ih hx hm1
    · rw [hx] at h
      exact Option.noConfusion h

theorem lastIndexOf_some {cs : List Char} {c : Char} {i : Nat}
    (h : lastIndexOf cs c = some i) :
    cs.get? i = some c ∧ ∀ j, i < j → cs.get? j ≠ some c := by
  induction cs generalizing i with
  | nil => exact Option.noConfusion h
  | cons x xs ih =>
    rw [lastIndexOf] at h
    rcases hx : lastIndexOf xs c with _ | i0
    · rw [hx] at h
      split_ifs at h with hxc
      obtain rfl := Option.some.inj h
      subst hxc
      refine ⟨rfl, ?_⟩
      intro j hj hget
      obtain ⟨j0, rfl⟩ : ∃ j0, j = j0 + 1 := ⟨j - 1, by omega⟩
      rw [List.get?_cons_succ] at hget
      exact lastIndexOf_none hx (by
        have := List.get?_mem hget
        exact this)
    · rw [hx] at h
      obtain rfl := Option.some.inj h
      obtain ⟨h1, h2⟩ := ih hx
      refine ⟨by simpa using h1, ?_⟩
      intro j hj hget
      obtain ⟨j0, rfl⟩ : ∃ j0, j = j0 + 1 := ⟨j - 1, by omega⟩
      rw [List.get?_cons_succ] at hget
      exact h2 j0 (by omega) hget

/-- C1: RegisterMethods (service/service.go lines 30-52) checks arity,
the error result type, and exported-or-builtin for the argument and reply
types, but omits the reply-is-pointer-kind check that its own
documentation (server.go lines 212-217, "the second argument is a
pointer") and the README require: a method whose reply parameter is a
plain int is accepted into the method map.  (NewReplyv would then panic
on ReplyType.Elem() at call time.) -/
theorem C1_nonpointer_reply_accepted :
    List.lookup "Bad" (registerMethods [badReplyMethod]) =
      some { methodName := "Bad", ArgType := intType, ReplyType := intType } ∧
    intType.kind ≠ GoKind.ptrK := by
  constructor
  · rfl
  · simp [intType]

/-- C8: Server.Register stores a Service with LoadOrStore semantics:
registering a name already present returns
"rpc: service already defined: <name>" and leaves the registry unchanged
with the previously stored Service still mapped; a fresh name is stored
and registration succeeds. -/
theorem C8_register_duplicate (m : Registry) (svc : Service) :
    (∀ old, List.lookup svc.Name m = some old →
      Register m svc =
        (some ("rpc: service already defined: " ++ svc.Name), m) ∧
      List.lookup svc.Name (Register m svc).2 = some old) ∧
    (List.lookup svc.Name m = none →
      Register m svc = (none, (svc.Name, svc) :: m) ∧
      List.lookup svc.Name (Register m svc).2 = some svc) := by
  constructor
  · intro old hold
    constructor
    · simp [Register, loadOrStore, hold]
    · simp [Register, loadOrStore, hold]
  · intro hnone
    constructor
    · simp [Register, loadOrStore, hnone]
    · simp [Register, loadOrStore, hnone]

/-- Witness for C8 at a concrete registry: re-registering Bar fails with
the duplicate error and the registry is unchanged. -/
theorem C8_register_duplicate_witness :
    Register [("Bar", barService)] barService =
      (some "rpc: service already defined: Bar", [("Bar", barService)]) ∧
    List.lookup "Bar" (Register [("Bar", barService)] barService).2 =
      some barService := by
  have h := (C8_register_duplicate [("Bar", barService)] barService).1
    barService (by decide)
  exact ⟨h.1, h.2⟩

/-- C9: findService splits at the LAST dot (the returned index holds a
dot and no dot occurs after it; absence of an index means no dot at all),
and fails with the ill-formed / can't-find-service / can't-find-method
errors in the three failure cases, otherwise returning the service and
method type. -/
theorem C9_findService_cases (reg : Registry) (sm : String) :
    (lastIndexOf sm.data '.' = none →
      '.' ∉ sm.data ∧
      findService reg sm =
        .error ("rpc server: service/method request ill-formed: " ++ sm)) ∧
    (∀ dot, lastIndexOf sm.data '.' = some dot →
      sm.data.get? dot = some '.' ∧
      (∀ j, dot < j → sm.data.get? j ≠ some '.') ∧
      (List.lookup (String.mk (sm.data.take dot)) reg = none →
        findService reg sm =
          .error ("rpc server: can't find service " ++
            String.mk (sm.data.take dot))) ∧
      (∀ svc, List.lookup (String.mk (sm.data.take dot)) reg = some svc →
        (List.lookup (String.mk (sm.data.drop (dot + 1))) svc.Method = none →
          findService reg sm =
            .error ("rpc server: can't find method " ++
              String.mk (sm.data.drop (dot + 1)))) ∧
        (∀ mt, List.lookup (String.mk (sm.data.drop (dot + 1))) svc.Method =
            some mt →
          findService reg sm = .ok { svc := svc, mtype := mt }))) := by
  constructor
  · intro hno
    exact ⟨lastIndexOf_none hno, by simp [findService, hno]⟩
  · intro dot hdot
    obtain ⟨hget, hafter⟩ := lastIndexOf_some hdot
    refine ⟨hget, hafter, ?_, ?_⟩
    · intro hsvc
      simp [findService, hdot, hsvc]
    · intro svc hsvc
      constructor
      · intro hmt
        simp [findService, hdot, hsvc, hmt]
      · intro mt hmt
        simp [findService, hdot, hsvc, hmt]

/-- Witness for C9: resolving "Bar.Timeout" against a registry holding
Bar finds the Timeout method. -/
theorem C9_findService_cases_witness :
    findService [("Bar", barService)] "Bar.Timeout" =
      .ok { svc := barService, mtype := timeoutMT } := by
  have h := (C9_findService_cases [("Bar", barService)] "Bar.Timeout").2
    3 (by decide)
  exact (h.2.2.2 barService (by decide)).2 timeoutMT (by decide)

/-- C2 counterexample: the claim says a request whose service/method
resolution fails still has its body consumed so the stream stays aligned
and the connection remains usable.  In the code readRequest returns
immediately after findService fails, leaving the body frame unread: with
an empty registry and the stream (header "Foo.Bar", body, header
"Bar.Timeout", body), the remaining stream still starts with the body
frame, and the serveCode loop emits only the single error response — the
next header read hits the unconsumed body frame, fails to decode, and the
loop exits, so the second request is never served. -/
theorem C2_body_not_consumed_cex :
    readRequest [] exStream =
      (some { head := exHeader1, found := none },
       some "rpc server: can't find service Foo",
       [Frame.bodyF true, Frame.headerF exHeader2, Frame.bodyF true]) ∧
    serveCode [] 5 exStream =
      [SrvEvent.errorResponse
        { ServiceMethod := "Foo.Bar", SeqId := 1,
          Error := "rpc server: can't find service Foo" }] := by
  constructor
  · rfl
  · rfl

/-- C2 (amended): when resolution fails the server does NOT consume the
body frame; it attaches the error to the header, sends an error response
with the placeholder body, and continues the read loop (with the body
frame still at the head of the stream). -/
theorem C2_resolution_failure (reg : Registry) (h : Header)
    (rest : List Frame) (e : String)
    (hres : findService reg h.ServiceMethod = .error e) :
    readRequest reg (Frame.headerF h :: rest) =
      (some { head := h, found := none }, some e, rest) ∧
    ∀ fuel, serveCode reg (fuel + 1) (Frame.headerF h :: rest) =
      SrvEvent.errorResponse { h with Error := e } ::
        serveCode reg fuel rest := by
  have h1 : readRequest reg (Frame.headerF h :: rest) =
      (some { head := h, found := none }, some e, rest) := by
    simp [readRequest, readHeaderM, hres]
  refine ⟨h1, ?_⟩
  intro fuel
  simp only [serveCode, h1]

/-- Witness for C2 (amended) on the concrete stream: the error response
for "Foo.Bar" is emitted and the loop continues on the unconsumed rest. -/
theorem C2_resolution_failure_witness :
    readRequest [] (Frame.headerF exHeader1 :: [Frame.bodyF true]) =
      (some { head := exHeader1, found := none },
       some "rpc server: can't find service Foo", [Frame.bodyF true]) ∧
    serveCode [] 2 (Frame.headerF exHeader1 :: [Frame.bodyF true]) =
      SrvEvent.errorResponse
        { exHeader1 with Error := "rpc server: can't find service Foo" } ::
        serveCode [] 1 [Frame.bodyF true] := by
  have h := C2_resolution_failure [] exHeader1 [Frame.bodyF true]
    "rpc server: can't find service Foo" rfl
  exact ⟨h.1, h.2 1⟩

/-- C4: the handleRequest timeout state machine.  With a zero timeout the
parent never reaches the timed-out state, and it returns (pdone) only
after the worker has passed both the called and sent rendezvous, with
exactly the worker's response written.  With a nonzero timeout, if the
timer wins the select, the only write so far is the error response whose
header error is "rpc server: request handle timeout: expect within <d>",
and the parent has returned while the worker has not been awaited (it
never reached its send); if called wins, the parent waits for sent and
the worker's response is the only write. -/
theorem C4_handle_timeout (timeout : Nat) (fmtDur : Nat → String)
    (callErr : Option String) (h : Header) (sched : List HLabel) (s : HState)
    (hr : hrun timeout fmtDur callErr h sched = some s) :
    (timeout = 0 → s.ppc ≠ .timedOut ∧
      (s.ppc = .pdone → s.wpc = .wdone ∧
        s.sends = [workerResponse callErr h])) ∧
    (timeout ≠ 0 →
      (s.ppc = .timedOut →
        s.sends = [({ h with Error := handleTimeoutMsg fmtDur timeout },
          true)] ∧
        s.wpc ≠ .wdone ∧ s.wpc ≠ .atSent ∧ s.wpc ≠ .postCalled) ∧
      (s.ppc = .pdone → s.wpc = .wdone ∧
        s.sends = [workerResponse callErr h])) := by
  have hg := hrunGood hr
  constructor
  · intro ht0
    constructor
    · rcases hg with ⟨h1, h2, h3, h4⟩ | ⟨h1, h2, h3, h4⟩ | ⟨h1, h2, h3, h4⟩ |
        ⟨h1, h2, h4⟩ | ⟨h1, h2, h4⟩ | ⟨h0, h1, h2, h4⟩ <;> simp_all
    · intro hp
      rcases hg with ⟨h1, h2, h3, h4⟩ | ⟨h1, h2, h3, h4⟩ | ⟨h1, h2, h3, h4⟩ |
        ⟨h1, h2, h4⟩ | ⟨h1, h2, h4⟩ | ⟨h0, h1, h2, h4⟩ <;> simp_all
  · intro htn
    constructor
    · intro hp
      rcases hg with ⟨h1, h2, h3, h4⟩ | ⟨h1, h2, h3, h4⟩ | ⟨h1, h2, h3, h4⟩ |
        ⟨h1, h2, h4⟩ | ⟨h1, h2, h4⟩ | ⟨h0, h1, h2, h4⟩
      · rw [h2] at hp
        exact absurd hp (by simp)
      · rw [h2] at hp
        exact absurd hp (by simp)
      · rw [h2] at hp
        exact absurd hp (by simp)
      · rw [h2] at hp
        exact absurd hp (by simp)
      · rw [h2] at hp
        exact absurd hp (by simp)
      · refine ⟨h4, ?_, ?_, ?_⟩ <;>
          rcases h1 with h1 | h1 <;> rw [h1] <;> simp
    · intro hp
      rcases hg with ⟨h1, h2, h3, h4⟩ | ⟨h1, h2, h3, h4⟩ | ⟨h1, h2, h3, h4⟩ |
        ⟨h1, h2, h4⟩ | ⟨h1, h2, h4⟩ | ⟨h0, h1, h2, h4⟩ <;> simp_all

/-- Witness for C4: with a 5ns timeout, Service.Call finishes but the
timer wins the select; the only response is the timeout error response
and the worker was not awaited. -/
theorem C4_handle_timeout_witness :
    hrun 5 (fun _ => "5ns") none exHeader1 [.wcall, .timerFire] =
      some c4State ∧
    c4State.sends = [(c4Header, true)] ∧ c4State.wpc ≠ WPC.wdone := by
  have hr : hrun 5 (fun _ => "5ns") none exHeader1 [.wcall, .timerFire] =
      some c4State := by decide
  have h := (C4_handle_timeout 5 (fun _ => "5ns") none exHeader1
    [.wcall, .timerFire] c4State hr).2 (by decide)
  have h2 := h.1 rfl
  exact ⟨hr, h2.1, h2.2.1⟩

/-- C5: dialTimeout.  With ConnectTimeout zero the race has no timer, so
when dialTimeout returns it returns exactly the handshake factory's
result (the connection is closed by the deferred close only when that
result carries an error).  With ConnectTimeout nonzero, if the timer wins
the race, dialTimeout fails with
"rpc client: connect timeout: expect within <d>" and the connection is
closed. -/
theorem C5_connect_timeout (fmtDur : Nat → String) (opts : List (Option Opt))
    (fres : DialResult) (sched : List DLabel) (opt : Opt)
    (res : DialResult) (closed : Bool)
    (hopt : parseOptions opts = .ok opt)
    (hd : dialTimeout fmtDur opts true fres sched = some (res, closed)) :
    (opt.ConnectTimeout = 0 → res = fres ∧ closed = fres.err.isSome) ∧
    (opt.ConnectTimeout ≠ 0 →
      ∀ s, drun (opt.ConnectTimeout ≠ 0) sched = some s →
        s.dpc = .dTimedOut →
        res = { clientOk := false,
                err := some ("rpc client: connect timeout: expect within " ++
                  fmtDur opt.ConnectTimeout) } ∧ closed = true) := by
  rw [dialTimeout, hopt] at hd
  simp only [Bool.true_eq_false, if_false] at hd
  constructor
  · intro ht0
    rcases hdr : drun (opt.ConnectTimeout ≠ 0) sched with _ | s
    · rw [hdr] at hd
      exact Option.noConfusion hd
    · rw [hdr] at hd
      obtain ⟨fr, dpc⟩ := s
      have hfalse : (decide (opt.ConnectTimeout ≠ 0)) = false := by
        simp [ht0]
      rw [hfalse] at hdr
      rw [drun] at hdr
      have hnt := drun_no_timer sched { factoryReady := false, dpc := .selecting }
        { factoryReady := fr, dpc := dpc } (by simp) hdr
      cases dpc
      · exact Option.noConfusion hd
      · have he := Option.some.inj hd
        exact ⟨(congrArg Prod.fst he).symm, (congrArg Prod.snd he).symm⟩
      · exact absurd rfl hnt
  · intro htn s hdr hdpc
    rw [hdr] at hd
    obtain ⟨fr, dpc⟩ := s
    have hdpc2 : dpc = DPC.dTimedOut := hdpc
    subst hdpc2
    have he := Option.some.inj hd
    exact ⟨(congrArg Prod.fst he).symm, (congrArg Prod.snd he).symm⟩

/-- Witness for C5: a factory slower than the 1s connect timeout makes
dialTimeout fail with the connect-timeout error and close the socket. -/
theorem C5_connect_timeout_witness :
    dialTimeout (fun _ => "1s") [some c5OptIn] true fres0 [.dialTimer] =
      some ({ clientOk := false,
              err := some "rpc client: connect timeout: expect within 1s" },
            true) ∧
    ({ clientOk := false,
       err := some "rpc client: connect timeout: expect within 1s" }
        : DialResult) =
      { clientOk := false,
        err := some ("rpc client: connect timeout: expect within " ++
          (fun _ : Nat => "1s") c5Opt.ConnectTimeout) } := by
  have hd : dialTimeout (fun _ => "1s") [some c5OptIn] true fres0
      [.dialTimer] =
      some ({ clientOk := false,
              err := some "rpc client: connect timeout: expect within 1s" },
            true) := by decide
  have h := (C5_connect_timeout (fun _ => "1s") [some c5OptIn] fres0
    [.dialTimer] c5Opt _ _ rfl hd).2 (by decide)
    { factoryReady := false, dpc := .dTimedOut } (by decide) rfl
  exact ⟨hd, by rw [← h.1]⟩

/-- C3 counterexample: the claim says exactly one of {reader success,
reader error, terminateCalls completion, send-failure completion,
removal by cancellation} occurs for every registered call.  In the trace
cexTrace, call 0 is registered and sent; the stream then breaks and
terminateCalls completes the call with the read error — but
terminateCalls (client/client.go lines 93-104) does not remove the entry
from the pending map, so when the awaiter's cancellation scope fires,
Call's ctx.Done branch (removeCall(call.Seq), line 242) removes the stale
entry: the call has BOTH an error completion via terminateCalls and a
removal by cancellation, i.e. two of the listed outcomes (outcomeCount =
2), refuting "exactly one".  (The completion signal itself is still
unique: sigCount = 1.) -/
theorem C3_two_outcomes_cex : cexMeasures = some (1, 1, 1, 1, 2) := by
  decide

/-- C3 (amended): on every reachable client state, every call receives at
most one completion signal (so the four completion kinds are mutually
exclusive); a removal by cancellation can coexist only with a
terminateCalls completion (never with a reader or send-failure
completion, which delete the pending entry first); and once the reader
has terminated, every registered call has at least one outcome
(completion signal or cancellation removal). -/
theorem C3_completion_discipline (acts : List Act) (st : CState) (cid : Nat)
    (h : runClient acts = some st) :
    sigCount st cid ≤ 1 ∧
    (1 ≤ cancelCount st cid → nonTermSigCount st cid = 0) ∧
    (st.reader = .terminated → 1 ≤ regCount st cid →
      1 ≤ outcomeCount st cid) := by
  have hI := runInv h
  exact ⟨hI.sigOnce cid, hI.cancelNoNonTerm cid,
    fun hr hreg => hI.termOutcome hr cid hreg⟩

/-- Witness for C3 (amended) on the concrete trace cexTrace. -/
theorem C3_completion_discipline_witness :
    runClient cexTrace = some c3State ∧
    sigCount c3State 0 ≤ 1 ∧ 1 ≤ outcomeCount c3State 0 := by
  have hr : runClient cexTrace = some c3State := by decide
  have h := C3_completion_discipline cexTrace c3State 0 hr
  exact ⟨hr, h.1, h.2.2 rfl (by decide)⟩

/-- C6: on one client, sequence ids are assigned starting at 1 and handed
out consecutively (regSeqs st = range' 1 (seq - 1)), so 0 is never
assigned, each successful registerCall returns an id strictly larger than
every previous one (Pairwise <), ids are never reused, and the keys of
the pending map are distinct, so no two simultaneously-pending calls
share a sequence id. -/
theorem C6_sequence_ids (acts : List Act) (st : CState)
    (h : runClient acts = some st) :
    regSeqs st = List.range' 1 (st.seq - 1) ∧
    (∀ s ∈ regSeqs st, 1 ≤ s) ∧
    List.Pairwise (· < ·) (regSeqs st) ∧
    (st.pending.map Prod.fst).Nodup := by
  have hI := runInv h
  refine ⟨hI.regRange, ?_, ?_, hI.pendNodup⟩
  · intro s hs
    rw [hI.regRange, List.mem_range'] at hs
    omega
  · rw [hI.regRange]
    exact List.pairwise_lt_range' 1 (st.seq - 1)

/-- Witness for C6 on the trace c6Trace: two registrations got ids 1 and
2 and both pending keys are distinct. -/
theorem C6_sequence_ids_witness :
    runClient c6Trace = some c6State ∧ regSeqs c6State = [1, 2] ∧
    List.Pairwise (· < ·) (regSeqs c6State) := by
  have hr : runClient c6Trace = some c6State := by decide
  have h := C6_sequence_ids c6Trace c6State hr
  exact ⟨hr, by decide, h.2.2.1⟩

/-- C7: once closing or shutdown is set, registerCall fails with
"connection is closed" and the send path completes the call with that
error (the regFail event models call.Error = err; call.done() at
client/client.go lines 193-196) while the pending map, the next sequence
id and the call-Seq assignments are untouched. -/
theorem C7_register_after_close (st : CState) (cid : Nat)
    (hflag : st.closing = true ∨ st.shutdown = true)
    (hlock : st.sendLock = some (.sender cid))
    (hph : getPhase st cid = .locked) :
    registerCall st cid = .error "connection is closed" ∧
    ∀ st2, step st (.sendRegister cid) = some st2 →
      st2.pending = st.pending ∧ st2.seq = st.seq ∧
      st2.callSeq = st.callSeq ∧
      st2.events = st.events ++ [Ev.regFail cid "connection is closed"] := by
  have h1 : registerCall st cid = .error "connection is closed" := by
    rw [registerCall, if_pos (by simpa using hflag)]
  refine ⟨h1, ?_⟩
  intro st2 hstep2
  simp only [step] at hstep2
  rw [if_pos ⟨hlock, hph⟩] at hstep2
  rw [h1] at hstep2
  obtain rfl := (Option.some.inj hstep2).symm
  exact ⟨rfl, rfl, rfl, rfl⟩

/-- Witness for C7: in the state reached by Close then Go(call 0), the
registration fails with the error and nothing is registered. -/
theorem C7_register_after_close_witness :
    registerCall c7State 0 = .error "connection is closed" ∧
    ∀ st2, step c7State (.sendRegister 0) = some st2 →
      st2.pending = c7State.pending ∧ st2.seq = c7State.seq ∧
      st2.callSeq = c7State.callSeq ∧
      st2.events = c7State.events ++
        [Ev.regFail 0 "connection is closed"] := by
  exact C7_register_after_close c7State 0 (Or.inl rfl) rfl rfl

/-- C10: removeCall with an absent sequence id returns nil and leaves the
entire client state unchanged (pending entries, next sequence id, flags);
sequence id 0 is never a pending key (ids start at 1), and on any
reachable state the entry found under a call's own Seq field can only be
that very call, so the cancellation path of Call (removeCall(call.Seq))
never removes another call's pending entry — in particular a call whose
registration failed still has Seq 0 and its removal is a no-op. -/
theorem C10_removeCall_frame (acts : List Act) (st : CState) (s cid : Nat)
    (h : runClient acts = some st) :
    (List.lookup s st.pending = none → removeCall st s = (none, st)) ∧
    List.lookup 0 st.pending = none ∧
    (∀ c, List.lookup (getSeq st cid) st.pending = some c → c = cid) := by
  have hI := runInv h
  refine ⟨?_, ?_, ?_⟩
  · intro hnone
    rw [removeCall, hnone, filterKey_eq_self hnone]
  · rw [lookup_none_keys]
    intro p hp
    have := (hI.pendKeys p hp).1
    omega
  · intro c hlkc
    have hmem := lookup_mem hlkc
    have hk1 := (hI.pendKeys _ hmem).1
    have hps : getSeq st c = getSeq st cid := hI.pendSeq _ hmem
    refine (hI.getSeqInj cid c ?_ hps.symm).symm
    omega

/-- Witness for C10 on the state after c6Trace: sequence id 5 is absent
and its removal is a no-op; call 0 has Seq 1 and the entry under key 1 is
call 0 itself. -/
theorem C10_removeCall_frame_witness :
    runClient c6Trace = some c6State ∧
    removeCall c6State 5 = (none, c6State) ∧
    List.lookup 0 c6State.pending = none := by
  have hr : runClient c6Trace = some c6State := by decide
  have h := C10_removeCall_frame c6Trace c6State 5 0 hr
  exact ⟨hr, h.1 (by decide), h.2.1⟩

end XXRpc
